import Mathlib

/-!
Verification of the interview-session state machine and the speech-input
adapter of the ai-interview-pro repository, as a shallow embedding.

The embedding follows `components/interview-session.tsx` (session state
machine) and the speech-recognition component.  Asynchronous behaviour
(timeout callbacks, utterance completion handlers, handlers of cancelled
utterances) is modelled by an explicit event-step function over a state that
records the pending timers and the in-flight / cancelled utterances; network
fetches are resolved by oracle values carried on the events.
-/

namespace InterviewPro

/-! ## JS string trimming -/

/-- Whitespace test, mirroring the character class used by the JS trim. -/
def isWs (c : Char) : Bool := c.isWhitespace

/-- Embedding of the JS `String.prototype.trim`: drop whitespace from both ends. -/
def jsTrim (s : String) : String :=
  ⟨((s.data.dropWhile isWs).reverse.dropWhile isWs).reverse⟩

/-! ## Speech Input Adapter (the speech-recognition component) -/

/-- One entry of a recognition result event: a final or interim segment. -/
structure RecSegment where
  isFinal : Bool
  text : String
deriving DecidableEq

/-- Error categories of the browser speech-recognition engine, as classified
by the component's `onerror` handler. -/
inductive RecError
  | noSpeech
  | captureLost
  | notAllowedPerm
  | network
  | aborted
  | serviceNotAllowed
  | other
deriving DecidableEq

/-- State of the speech-recognition component: rendered transcript state,
the accumulated final transcript ref, the processing flag, the recognition
engine flag, the parent-controlled listening prop, the two pending timeouts,
and ghost logs of the emitted results and stop calls. -/
structure RecState where
  transcript : String
  interim : String
  finalTranscript : String
  processing : Bool
  active : Bool
  listening : Bool
  errorMsg : Option String
  silenceTimer : Option Nat
  restartTimer : Option Nat
  emitted : List String
  stopCalls : Nat
  stopSignals : Nat
deriving DecidableEq

def initRecState : RecState :=
  { transcript := "", interim := "", finalTranscript := "", processing := false,
    active := false, listening := false, errorMsg := none, silenceTimer := none,
    restartTimer := none, emitted := [], stopCalls := 0, stopSignals := 0 }

/-- `clearAllTimeouts` of the component. -/
def clearRecTimeouts (s : RecState) : RecState :=
  { s with silenceTimer := none, restartTimer := none }

/-- `processTranscript`: guard, stop recognition, clear timers, emit the
trimmed text once, reset the transcript state. -/
def processTranscript (s : RecState) (text : String) : RecState :=
  if s.processing || (jsTrim text == "") then s
  else
    let s := { s with processing := true, stopCalls := s.stopCalls + 1 }
    let s := clearRecTimeouts s
    { s with emitted := s.emitted ++ [jsTrim text],
             transcript := "", interim := "", finalTranscript := "", active := false }

/-- Concatenation of the trimmed final segments of a result event,
each followed by a space. -/
def finalTextOf (segs : List RecSegment) : String :=
  segs.foldl (fun acc g => if g.isFinal then acc ++ jsTrim g.text ++ " " else acc) ""

/-- Concatenation of the trimmed interim segments of a result event. -/
def interimTextOf (segs : List RecSegment) : String :=
  segs.foldl (fun acc g => if g.isFinal then acc else acc ++ jsTrim g.text ++ " ") ""

/-- The `onresult` handler: accumulate final text, restart the 1500 ms
silence timer when the final text has content, update the interim display. -/
def recOnResult (s : RecState) (segs : List RecSegment) : RecState :=
  if s.processing then s
  else
    let finalText := finalTextOf segs
    let interimText := interimTextOf segs
    let s :=
      if jsTrim finalText == "" then s
      else
        { s with finalTranscript := s.finalTranscript ++ finalText,
                 transcript := jsTrim (s.finalTranscript ++ finalText),
                 silenceTimer := some 1500 }
    if jsTrim interimText == "" then s
    else { s with interim := jsTrim interimText }

/-- The silence timeout elapsing: finalize the accumulated transcript when it
has content and no finalization is in progress. -/
def recSilenceElapse (s : RecState) : RecState :=
  match s.silenceTimer with
  | none => s
  | some _ =>
    let s := { s with silenceTimer := none }
    if (jsTrim s.finalTranscript == "") || s.processing then s
    else processTranscript s (jsTrim s.finalTranscript)

/-- The `onstart` handler. -/
def recOnStart (s : RecState) : RecState :=
  { s with active := true, errorMsg := none, transcript := "", interim := "",
           finalTranscript := "", processing := false }

/-- `scheduleRestart`. -/
def scheduleRestart (s : RecState) (delay : Nat) : RecState :=
  { s with restartTimer := some delay }

/-- The `onerror` handler's classification. -/
def recOnError (s : RecState) (e : RecError) : RecState :=
  match e with
  | .noSpeech =>
    let s := { s with errorMsg := some "no-speech" }
    if s.listening then scheduleRestart s 1000 else s
  | .captureLost =>
    { s with errorMsg := some "audio-capture", active := false,
             stopSignals := s.stopSignals + 1 }
  | .notAllowedPerm =>
    { s with errorMsg := some "not-allowed", active := false,
             stopSignals := s.stopSignals + 1 }
  | .network =>
    let s := { s with errorMsg := some "network" }
    if s.listening then scheduleRestart s 2000 else s
  | .aborted => { s with active := false }
  | .serviceNotAllowed =>
    { s with errorMsg := some "service-not-allowed", active := false,
             stopSignals := s.stopSignals + 1 }
  | .other =>
    let s := { s with errorMsg := some "speech recognition error" }
    if s.listening then scheduleRestart s 1500 else s

/-- The `onend` handler: clear flags and timers, optionally schedule an
auto-restart. -/
def recOnEnd (s : RecState) : RecState :=
  let s := { s with active := false, silenceTimer := none }
  if s.listening && (s.errorMsg == none) && !s.processing then scheduleRestart s 500
  else s

/-- The restart timeout elapsing; a successful `start()` surfaces later as an
engine `onstart` event, so the state change here is only consuming the timer. -/
def recRestartElapse (s : RecState) : RecState :=
  { s with restartTimer := none }

/-- The parent toggling the `isListening` prop; turning it off while the
engine is active stops the engine and runs `cleanup()`. -/
def recSetListening (s : RecState) (b : Bool) : RecState :=
  if b then { s with listening := true }
  else
    let s := { s with listening := false }
    if s.active then
      let s := { s with stopCalls := s.stopCalls + 2 }
      { (clearRecTimeouts s) with active := false, processing := false }
    else s

/-- Events of the speech-recognition component. -/
inductive RecEvent
  | engineStart
  | result (segs : List RecSegment)
  | silence
  | engineError (e : RecError)
  | engineEnd
  | restartElapse
  | setListening (b : Bool)
deriving DecidableEq

def recStep (s : RecState) : RecEvent → RecState
  | .engineStart => recOnStart s
  | .result segs => recOnResult s segs
  | .silence => recSilenceElapse s
  | .engineError e => recOnError s e
  | .engineEnd => recOnEnd s
  | .restartElapse => recRestartElapse s
  | .setListening b => recSetListening s b

def recRun (s : RecState) (es : List RecEvent) : RecState := es.foldl recStep s

/-- The events that start a new listening turn (they reset the processing
flag). -/
def isTurnBoundary : RecEvent → Bool
  | .engineStart => true
  | .setListening _ => true
  | _ => false

/-! ## Session State Machine: data model -/

inductive Category
  | introduction
  | technical
  | behavioral
  | followUp
deriving DecidableEq

structure Question where
  id : Nat
  text : String
  category : Category
  asked : Bool
deriving DecidableEq

structure Response where
  questionId : Nat
  question : String
  answer : String
  timestamp : Nat
  duration : Nat
deriving DecidableEq

inductive InterviewPhase
  | instructions
  | voiceIntro
  | introduction
  | technical
  | behavioral
  | ending
  | feedback
deriving DecidableEq

structure QuestionCounts where
  introduction : Nat
  technical : Nat
  behavioral : Nat
deriving DecidableEq

def QuestionCounts.sum (c : QuestionCounts) : Nat :=
  c.introduction + c.technical + c.behavioral

/-- The three question phases that own a counter and a fetched batch. -/
inductive QPhase
  | introduction
  | technical
  | behavioral
deriving DecidableEq

def QPhase.toCategory : QPhase → Category
  | .introduction => .introduction
  | .technical => .technical
  | .behavioral => .behavioral

def QPhase.toPhase : QPhase → InterviewPhase
  | .introduction => .introduction
  | .technical => .technical
  | .behavioral => .behavioral

/-- The fixed question budget of each phase. -/
def QPhase.budget : QPhase → Nat
  | .introduction => 3
  | .technical => 5
  | .behavioral => 4

/-- The fixed local fallback question table. -/
def fallbackQuestions : QPhase → List Question
  | .introduction =>
    [⟨1, "Please introduce yourself - tell me your name, educational background, and a brief overview of your professional experience.", .introduction, false⟩,
     ⟨2, "Can you walk me through your current role and what you do on a day-to-day basis?", .introduction, false⟩,
     ⟨3, "Tell me about your educational background and how it led you to your current field.", .introduction, false⟩]
  | .technical =>
    [⟨4, "Describe your experience with the main technologies mentioned in the job description.", .technical, false⟩,
     ⟨5, "How would you approach solving a complex technical problem?", .technical, false⟩,
     ⟨6, "What programming languages are you most comfortable with?", .technical, false⟩,
     ⟨7, "Explain a technical project you're proud of.", .technical, false⟩,
     ⟨8, "How do you stay updated with new technologies?", .technical, false⟩]
  | .behavioral =>
    [⟨9, "What attracted you to this specific position and our company?", .behavioral, false⟩,
     ⟨10, "Tell me about a challenging project you worked on and how you overcame obstacles.", .behavioral, false⟩,
     ⟨11, "Describe a situation where you had to work with a difficult team member or handle conflict.", .behavioral, false⟩,
     ⟨12, "Where do you see yourself in the next 3-5 years, and how does this role align with your career goals?", .behavioral, false⟩]

inductive TrackKind
  | cam
  | mic
deriving DecidableEq

structure MediaTrack where
  kind : TrackKind
  enabled : Bool
  stopped : Bool
deriving DecidableEq

/-- The continuation attached to an utterance: either the default behaviour
of `speakQuestion` (schedule listening), or one of the `onComplete` closures
passed at the call sites. -/
inductive Continuation
  | plain
  | afterVoiceIntro
  | afterTransition (q : Question)
  | afterThankYou
  | contNone
deriving DecidableEq

structure Utterance where
  text : String
  cont : Continuation
deriving DecidableEq

/-- The callbacks registered through `createTimeout`. -/
inductive TimerKind
  | listen
  | speak (q : Question)
  | settle (counts : QuestionCounts) (resps : List Response)
  | toFeedback
deriving DecidableEq

structure Timer where
  kind : TimerKind
  delay : Nat
deriving DecidableEq

/-- Outcome of a `generate-questions` batch fetch. -/
inductive FetchResult
  | ok (qs : List Question)
  | fail
deriving DecidableEq

/-- Outcome of a `generate-next-question` fetch (the id models `Date.now()`). -/
inductive NextResult
  | ok (id : Nat) (text : String)
  | fail
deriving DecidableEq

structure SessionState where
  isCameraOn : Bool
  isMicOn : Bool
  currentQuestion : Option Question
  questions : List Question
  responses : List Response
  isListening : Bool
  interviewPhase : InterviewPhase
  isLoading : Bool
  aiSpeaking : Bool
  isInterviewEnded : Bool
  questionCounts : QuestionCounts
  currentQuestionIndex : Nat
  stream : Option (List MediaTrack)
  releasedTracks : List MediaTrack
  currentUtterance : Option Utterance
  cancelled : List Utterance
  timers : List Timer
  onEndCalled : Bool
deriving DecidableEq

/-- The mounted component after camera initialization: one camera track and
one microphone track, instructions screen showing. -/
def initialState : SessionState :=
  { isCameraOn := true, isMicOn := true, currentQuestion := none, questions := [],
    responses := [], isListening := false, interviewPhase := .instructions,
    isLoading := false, aiSpeaking := false, isInterviewEnded := false,
    questionCounts := ⟨0, 0, 0⟩, currentQuestionIndex := 0,
    stream := some [⟨.cam, true, false⟩, ⟨.mic, true, false⟩],
    releasedTracks := [], currentUtterance := none, cancelled := [],
    timers := [], onEndCalled := false }

/-! ## Session State Machine: operations -/

/-- `createTimeout`: register a tracked timeout (the ended-flag check of the
wrapper happens when the timer fires). -/
def createTimeout (s : SessionState) (k : TimerKind) (delay : Nat) : SessionState :=
  { s with timers := s.timers ++ [⟨k, delay⟩] }

/-- `clearAllTimeouts`. -/
def clearAllTimeouts (s : SessionState) : SessionState :=
  { s with timers := [] }

/-- `speakQuestion`: cancel any in-flight utterance (whose handlers stay
registered and will still fire) and start the new one. -/
def speakQuestion (s : SessionState) (text : String) (cont : Continuation) : SessionState :=
  if s.isInterviewEnded then s
  else
    { s with aiSpeaking := true,
             cancelled := s.cancelled ++ s.currentUtterance.toList,
             currentUtterance := some ⟨text, cont⟩ }

def voiceInstructionsText : String :=
  "Welcome to your AI-powered mock interview! I'm your virtual interviewer today. This interview has three phases: First, I'll ask some introduction questions to get to know you personally and professionally. Then, we'll move to technical questions about your skills. Finally, I'll ask behavioral questions about your experience. Please speak clearly. When you finish answering, stop speaking for 2 seconds and I'll move to the next question. Let's begin with the introduction phase. I'm excited to learn about you!"

def techTransitionText : String :=
  "Great! Thank you for that introduction. Now let's move to the technical questions. These will focus on your technical skills and knowledge relevant to the position."

def behavTransitionText : String :=
  "Excellent! Now for the final phase, I'll ask you some behavioral questions. These will help me understand your experience and how you handle different situations."

def thankYouText : String :=
  "Congratulations! You have successfully completed your mock interview. You answered all the questions across the three phases - introduction, technical, and behavioral. Thank you for your time and effort today. You demonstrated great professionalism throughout the interview process. I will now analyze all of your responses and provide you with detailed feedback, including your strengths, areas for improvement, and specific recommendations to help you excel in your future interviews. Please wait a moment while I prepare your comprehensive performance report."

def skipSentinel : String := "User skipped this question"

/-- The questions obtained from a batch fetch: the fetched list when the call
succeeded with a nonempty list, the fallback table otherwise. -/
def fetchedBatch (p : QPhase) (r : FetchResult) : List Question :=
  match r with
  | .ok qs => if qs.length > 0 then qs else fallbackQuestions p
  | .fail => fallbackQuestions p

/-- `generateQuestionsForPhase`: install the batch (or its fallback) and, for
the introduction phase only, schedule speaking the first question. -/
def generateQuestionsForPhase (s : SessionState) (p : QPhase) (r : FetchResult) :
    SessionState :=
  if s.isInterviewEnded then s
  else
    let qs := fetchedBatch p r
    let s := { s with isLoading := false, questions := qs,
                      currentQuestion := qs.head?, currentQuestionIndex := 0 }
    if p = QPhase.introduction then
      match qs with
      | q :: _ => createTimeout s (.speak q) 1000
      | [] => s
    else s

/-- The per-category increment of `handleResponse`. -/
def bumpCounts (c : QuestionCounts) (cat : Category) : QuestionCounts :=
  match cat with
  | .introduction => { c with introduction := c.introduction + 1 }
  | .technical => { c with technical := c.technical + 1 }
  | .behavioral => { c with behavioral := c.behavioral + 1 }
  | .followUp => c

/-- `handleResponse`: record the answer, bump the counter of the current
question's category, mark the question asked, stop listening, and schedule
the phase-advance decision over the new counts and log after the settle
delay. -/
def handleResponse (s : SessionState) (answer : String) (now : Nat) : SessionState :=
  match s.currentQuestion with
  | none => s
  | some cq =>
    if s.isInterviewEnded then s
    else
      let response : Response := ⟨cq.id, cq.text, answer, now, 0⟩
      let newResponses := s.responses ++ [response]
      let newCounts := bumpCounts s.questionCounts cq.category
      let updatedQuestions :=
        s.questions.map fun q => if q.id = cq.id then { q with asked := true } else q
      createTimeout
        { s with responses := newResponses, isListening := false,
                 questionCounts := newCounts, questions := updatedQuestions }
        (.settle newCounts newResponses) 2000

/-- The at-budget branch of `determineNextStep`: enter the next phase, fetch
its batch (or substitute the fallback), install it, then start speaking the
transition message whose completion will schedule the first new question. -/
def transitionToPhase (s : SessionState) (p : QPhase) (r : FetchResult) : SessionState :=
  let s := { s with interviewPhase := p.toPhase, currentQuestionIndex := 0 }
  let qs := fetchedBatch p r
  let s := { s with questions := qs, currentQuestion := qs.head?, isLoading := false }
  let msg :=
    match p with
    | .technical => techTransitionText
    | .behavioral => behavTransitionText
    | .introduction => ""
  speakQuestion s msg (match qs with | q :: _ => .afterTransition q | [] => .contNone)

/-- `generateNextQuestionInPhase`: request one continuation question; on
success install and schedule it, on failure do nothing further. -/
def generateNextQuestionInPhase (s : SessionState) (p : QPhase)
    (_resps : List Response) (r : NextResult) : SessionState :=
  if s.isInterviewEnded then s
  else
    match r with
    | .ok id text =>
      if text = "" then { s with isLoading := false }
      else
        let newQ : Question := ⟨id, text, p.toCategory, false⟩
        createTimeout
          { s with currentQuestion := some newQ, questions := s.questions ++ [newQ],
                   currentQuestionIndex := s.questions.length, isLoading := false }
          (.speak newQ) 1000
    | .fail => { s with isLoading := false }

/-- `endInterview`: enter the ending phase and speak the closing message. -/
def endInterview (s : SessionState) : SessionState :=
  if s.isInterviewEnded then s
  else
    let s := { s with interviewPhase := .ending, currentQuestion := none,
                      isListening := false }
    speakQuestion s thankYouText .afterThankYou

/-- The below-budget branch of `determineNextStep`: move to the next local
question if one remains, otherwise request one more from the service. -/
def advanceWithinPhase (s : SessionState) (p : QPhase) (resps : List Response)
    (nr : NextResult) : SessionState :=
  let nextIndex := s.currentQuestionIndex + 1
  match s.questions[nextIndex]? with
  | some q =>
    createTimeout
      { s with currentQuestionIndex := nextIndex, currentQuestion := some q }
      (.speak q) 1000
  | none => generateNextQuestionInPhase s p resps nr

/-- `determineNextStep`, evaluated over the counts and response log captured
when the settle timer was created. -/
def determineNextStep (s : SessionState) (counts : QuestionCounts)
    (resps : List Response) (r : FetchResult) (nr : NextResult) : SessionState :=
  if s.isInterviewEnded then s
  else
    match s.interviewPhase with
    | .introduction =>
      if counts.introduction < 3 then advanceWithinPhase s .introduction resps nr
      else transitionToPhase s .technical r
    | .technical =>
      if counts.technical < 5 then advanceWithinPhase s .technical resps nr
      else transitionToPhase s .behavioral r
    | .behavioral =>
      if counts.behavioral < 4 then advanceWithinPhase s .behavioral resps nr
      else endInterview s
    | _ => s

/-- The shared body of the `onend` and `onerror` handlers of an utterance,
run after `aiSpeaking` is cleared: run the `onComplete` closure when one was
given, otherwise schedule listening. -/
def afterUtterance (s : SessionState) (cont : Continuation) (r : FetchResult) :
    SessionState :=
  if s.isInterviewEnded then s
  else
    match cont with
    | .plain =>
      if s.isMicOn ∧ s.interviewPhase ≠ InterviewPhase.voiceIntro then
        createTimeout s .listen 1000
      else s
    | .afterVoiceIntro =>
      generateQuestionsForPhase { s with interviewPhase := .introduction }
        .introduction r
    | .afterTransition q => createTimeout s (.speak q) 1000
    | .afterThankYou => createTimeout s .toFeedback 2000
    | .contNone => s

/-- `startInterview` followed by `giveVoiceInstructions`. -/
def startInterview (s : SessionState) : SessionState :=
  let s := { s with interviewPhase := .voiceIntro }
  if s.isInterviewEnded then s
  else speakQuestion s voiceInstructionsText .afterVoiceIntro

/-- `handleEndInterview`: set the ended flag first, cancel speech and null
its handlers, stop and remove every media track, drop the stream, clear all
timeouts, reset the UI state and invoke the external `onEnd` callback. -/
def handleEndInterview (s : SessionState) : SessionState :=
  let s := { s with isInterviewEnded := true }
  let s := { s with currentUtterance := none }
  let s :=
    match s.stream with
    | some ts =>
      { s with releasedTracks := s.releasedTracks ++ ts.map fun t => { t with stopped := true },
               stream := none }
    | none => s
  let s := clearAllTimeouts s
  { s with aiSpeaking := false, isListening := false, currentQuestion := none,
           isLoading := false, isCameraOn := false, isMicOn := false,
           onEndCalled := true }

/-- `handleManualNext`: when a question is active and the session is not
ended, cancel ongoing speech and record the skip sentinel as the answer. -/
def handleManualNext (s : SessionState) (now : Nat) : SessionState :=
  match s.currentQuestion with
  | none => s
  | some _ =>
    if s.isInterviewEnded then s
    else
      let s := { s with cancelled := s.cancelled ++ s.currentUtterance.toList,
                        currentUtterance := none, aiSpeaking := false }
      handleResponse s skipSentinel now

/-- Update the first track of the given kind, as `getAudioTracks()[0]` and
`getVideoTracks()[0]` do. -/
def setFirstOfKind : List MediaTrack → TrackKind → Bool → List MediaTrack
  | [], _, _ => []
  | t :: ts, k, b =>
    if t.kind = k then { t with enabled := b } :: ts
    else t :: setFirstOfKind ts k b

/-- `toggleMic`. -/
def toggleMic (s : SessionState) : SessionState :=
  match s.stream with
  | none => s
  | some ts =>
    if (ts.filter fun t => t.kind == TrackKind.mic) = [] then s
    else
      let newVal := !s.isMicOn
      { s with stream := some (setFirstOfKind ts .mic newVal), isMicOn := newVal,
               isListening := if newVal && s.isListening then false else s.isListening }

/-- `toggleCamera`. -/
def toggleCamera (s : SessionState) : SessionState :=
  match s.stream with
  | none => s
  | some ts =>
    if (ts.filter fun t => t.kind == TrackKind.cam) = [] then s
    else
      { s with stream := some (setFirstOfKind ts .cam (!s.isCameraOn)),
               isCameraOn := !s.isCameraOn }

/-- The `onRestart` callback handed to the feedback screen. -/
def restartSession (s : SessionState) : SessionState :=
  let s := { s with isInterviewEnded := false, interviewPhase := .instructions,
                    responses := [], questions := [],
                    questionCounts := ⟨0, 0, 0⟩, currentQuestionIndex := 0 }
  clearAllTimeouts s

/-! ## Session State Machine: event semantics -/

/-- The asynchronous events of a session.  Fetch outcomes are supplied as
oracle values on the event that will resolve them. -/
inductive Event
  | start
  | utteranceDone (r : FetchResult)
  | cancelFired (i : Nat) (r : FetchResult)
  | timerFired (i : Nat) (r : FetchResult) (nr : NextResult)
  | answer (text : String) (now : Nat)
  | skip (now : Nat)
  | endClick
  | micToggle
  | camToggle
  | recognitionStop
  | restart
deriving DecidableEq

def applyEvent (s : SessionState) : Event → SessionState
  | .start =>
    if s.interviewPhase = InterviewPhase.instructions then startInterview s else s
  | .utteranceDone r =>
    match s.currentUtterance with
    | none => s
    | some u =>
      afterUtterance { s with currentUtterance := none, aiSpeaking := false } u.cont r
  | .cancelFired i r =>
    match s.cancelled[i]? with
    | none => s
    | some u =>
      afterUtterance { s with cancelled := s.cancelled.eraseIdx i, aiSpeaking := false }
        u.cont r
  | .timerFired i r nr =>
    match s.timers[i]? with
    | none => s
    | some t =>
      let s := { s with timers := s.timers.eraseIdx i }
      if s.isInterviewEnded then s
      else
        match t.kind with
        | .listen => { s with isListening := true }
        | .speak q => speakQuestion s q.text .plain
        | .settle c rs => determineNextStep s c rs r nr
        | .toFeedback => { s with interviewPhase := .feedback }
  | .answer text now => if s.isListening then handleResponse s text now else s
  | .skip now => handleManualNext s now
  | .endClick => handleEndInterview s
  | .micToggle => toggleMic s
  | .camToggle => toggleCamera s
  | .recognitionStop => { s with isListening := false }
  | .restart =>
    if s.interviewPhase = InterviewPhase.feedback then restartSession s else s

def runEvents (s : SessionState) (es : List Event) : SessionState :=
  es.foldl applyEvent s

/-- The service contract of `generate-questions`: the returned questions
carry the requested phase as their category. -/
def batchOK (p : QPhase) (r : FetchResult) : Bool :=
  match r with
  | .ok qs => qs.all fun q => q.category == p.toCategory
  | .fail => true

/-- An event respects the remote-service contract in the given state. -/
def eventOK (s : SessionState) : Event → Bool
  | .utteranceDone r =>
    match s.currentUtterance with
    | some u =>
      match u.cont with
      | .afterVoiceIntro => batchOK .introduction r
      | _ => true
    | none => true
  | .cancelFired i r =>
    match s.cancelled[i]? with
    | some u =>
      match u.cont with
      | .afterVoiceIntro => batchOK .introduction r
      | _ => true
    | none => true
  | .timerFired i r _ =>
    match s.timers[i]? with
    | some t =>
      match t.kind with
      | .settle c _ =>
        match s.interviewPhase with
        | .introduction => if c.introduction < 3 then true else batchOK .technical r
        | .technical => if c.technical < 5 then true else batchOK .behavioral r
        | _ => true
      | _ => true
    | none => true
  | _ => true

/-- A run in which every event respects the service contract. -/
def okRun : SessionState → List Event → Bool
  | _, [] => true
  | s, e :: es => eventOK s e && okRun (applyEvent s e) es

def isSettleT : Timer → Bool
  | ⟨.settle _ _, _⟩ => true
  | _ => false

def isFeedbackT : Timer → Bool
  | ⟨.toFeedback, _⟩ => true
  | _ => false

def pendingSettle (s : SessionState) : Bool := s.timers.any isSettleT

/-- The turn-taking discipline: a skip is only submitted while no utterance
is being spoken and no listen, speak or settle timer is pending, and a
restart happens only once the handlers of cancelled utterances have fired. -/
def disciplined (s : SessionState) : Event → Bool
  | .skip _ => !s.aiSpeaking && s.timers.all isFeedbackT
  | .restart => s.cancelled.isEmpty
  | _ => true

/-- A run obeying the turn-taking discipline. -/
def discRun : SessionState → List Event → Bool
  | _, [] => true
  | s, e :: es => disciplined s e && discRun (applyEvent s e) es

/-! ## Derived notions used by the statements -/

/-- Number of unstopped tracks of the held stream. -/
def activeTrackCount (s : SessionState) : Nat :=
  match s.stream with
  | some ts => (ts.filter fun t => !t.stopped).length
  | none => 0

/-- What a phase transition must provide: the batch (fetched or fallback) is
installed and the transition message is being spoken when the step returns,
the step schedules nothing itself, and the completion of the transition
message is what schedules speaking the first new-phase question. -/
def transitionObligation (s : SessionState) (c : QuestionCounts) (rs : List Response)
    (p : QPhase) (msg : String) (r r2 : FetchResult) (nr : NextResult) : Prop :=
  ∃ q qs,
    fetchedBatch p r = q :: qs ∧
    (determineNextStep s c rs r nr).questions = q :: qs ∧
    (determineNextStep s c rs r nr).currentQuestion = some q ∧
    (determineNextStep s c rs r nr).interviewPhase = p.toPhase ∧
    (determineNextStep s c rs r nr).currentUtterance =
      some ⟨msg, .afterTransition q⟩ ∧
    (determineNextStep s c rs r nr).aiSpeaking = true ∧
    (determineNextStep s c rs r nr).timers = s.timers ∧
    (applyEvent (determineNextStep s c rs r nr) (.utteranceDone r2)).timers =
      s.timers ++ [⟨.speak q, 1000⟩] ∧
    (applyEvent (determineNextStep s c rs r nr) (.utteranceDone r2)).aiSpeaking = false

/-! ## Inductive invariants -/

/-- Every installed question and the current question carry the category. -/
def questionsCat (s : SessionState) (cat : Category) : Prop :=
  (∀ q ∈ s.questions, q.category = cat) ∧
  (∀ q, s.currentQuestion = some q → q.category = cat)

/-- The continuation of the in-flight utterance, when one exists, is among
the allowed ones. -/
def contOK (s : SessionState) (allowed : Continuation → Prop) : Prop :=
  ∀ u, s.currentUtterance = some u → allowed u.cont

/-- Settle timers carry the current counters. -/
def settlePayloadOK (s : SessionState) : Prop :=
  ∀ t ∈ s.timers, ∀ c rs, t.kind = TimerKind.settle c rs → c = s.questionCounts

def noFeedbackT (s : SessionState) : Prop :=
  ∀ t ∈ s.timers, isFeedbackT t = false

/-- The phase-indexed part of the session invariant. -/
def phaseInv (s : SessionState) : Prop :=
  match s.interviewPhase with
  | .instructions =>
    s.timers = [] ∧ s.currentUtterance = none ∧ s.isListening = false ∧
    s.currentQuestion = none ∧ s.questions = [] ∧ s.questionCounts = ⟨0, 0, 0⟩
  | .voiceIntro =>
    s.timers = [] ∧ s.isListening = false ∧ s.currentQuestion = none ∧
    s.questions = [] ∧ s.questionCounts = ⟨0, 0, 0⟩ ∧
    contOK s (· = .afterVoiceIntro)
  | .introduction =>
    questionsCat s .introduction ∧
    s.questionCounts.technical = 0 ∧ s.questionCounts.behavioral = 0 ∧
    (s.questionCounts.introduction = 3 →
      pendingSettle s = true ∨ s.isInterviewEnded = true) ∧
    settlePayloadOK s ∧ contOK s (· = .plain) ∧ noFeedbackT s
  | .technical =>
    questionsCat s .technical ∧
    s.questionCounts.behavioral = 0 ∧
    (s.questionCounts.technical = 5 →
      pendingSettle s = true ∨ s.isInterviewEnded = true) ∧
    settlePayloadOK s ∧
    contOK s (fun c => c = .plain ∨ ∃ q, c = .afterTransition q) ∧ noFeedbackT s
  | .behavioral =>
    questionsCat s .behavioral ∧
    (s.questionCounts.behavioral = 4 →
      pendingSettle s = true ∨ s.isInterviewEnded = true) ∧
    settlePayloadOK s ∧
    contOK s (fun c => c = .plain ∨ ∃ q, c = .afterTransition q) ∧ noFeedbackT s
  | .ending =>
    s.currentQuestion = none ∧ s.isListening = false ∧
    contOK s (· = .afterThankYou) ∧ (∀ t ∈ s.timers, isFeedbackT t = true)
  | .feedback =>
    s.currentQuestion = none ∧ s.isListening = false ∧ s.timers = [] ∧
    s.currentUtterance = none

/-- The session invariant holding along every disciplined contract-respecting
run: turn exclusivity between speaking, pending timers and listening, no
pending handlers of cancelled utterances, the phase budgets, and the
phase-indexed facts above. -/
structure Inv (s : SessionState) : Prop where
  canc : s.cancelled = []
  uttIff : s.aiSpeaking = s.currentUtterance.isSome
  mutex : s.aiSpeaking = false ∨ s.isListening = false
  timersLe : s.timers.length ≤ 1
  speakQuiet : s.aiSpeaking = true → s.timers = []
  listenQuiet : s.isListening = true → s.timers = [] ∧ s.aiSpeaking = false
  endedQuiet : s.isInterviewEnded = true →
    s.timers = [] ∧ s.currentUtterance = none ∧ s.aiSpeaking = false ∧
    s.isListening = false
  introLe : s.questionCounts.introduction ≤ 3
  techLe : s.questionCounts.technical ≤ 5
  behavLe : s.questionCounts.behavioral ≤ 4
  phase : phaseInv s

/-- The category facts needed for the response-log accounting, holding along
every contract-respecting run (no turn discipline needed). -/
def catInv (s : SessionState) : Prop :=
  (∀ q ∈ s.questions, q.category ≠ Category.followUp) ∧
  (∀ q, s.currentQuestion = some q → q.category ≠ Category.followUp)

/-! ## Concrete traces used by the closed statements -/

/-- Double skip during the settle delay: the introduction counter passes its
budget of 3. -/
def c1Trace : List Event :=
  [.start, .utteranceDone .fail,
   .skip 0, .timerFired 1 .fail .fail, .skip 1, .timerFired 2 .fail .fail,
   .skip 2, .skip 3]

/-- A disciplined run answering one introduction question. -/
def c1WitnessTrace : List Event :=
  [.start, .utteranceDone .fail, .timerFired 0 .fail .fail, .utteranceDone .fail,
   .timerFired 0 .fail .fail, .answer "I am a software engineer." 7]

/-- A contract-respecting run used to witness the response accounting. -/
def c3WitnessTrace : List Event :=
  [.start, .utteranceDone .fail, .timerFired 0 .fail .fail, .utteranceDone .fail,
   .timerFired 0 .fail .fail, .answer "I studied mathematics." 4]

/-- Failed introduction fetch, then the three fallback questions are spoken
and answered, reaching the technical phase. -/
def c5Trace : List Event :=
  [.start, .utteranceDone .fail,
   .timerFired 0 .fail .fail, .utteranceDone .fail, .timerFired 0 .fail .fail,
   .answer "My name is Alex and I studied engineering." 10,
   .timerFired 0 .fail .fail, .timerFired 0 .fail .fail,
   .utteranceDone .fail, .timerFired 0 .fail .fail,
   .answer "I currently work as a software engineer building web services." 20,
   .timerFired 0 .fail .fail, .timerFired 0 .fail .fail,
   .utteranceDone .fail, .timerFired 0 .fail .fail,
   .answer "I hold a degree in computer science." 30,
   .timerFired 0 .fail .fail]

/-- Skip while the question is being spoken: the cancelled utterance's
handler schedules listening, which then overlaps the next question's
speech. -/
def c7Trace : List Event :=
  [.start, .utteranceDone .fail,
   .timerFired 0 .fail .fail, .skip 0, .cancelFired 0 .fail,
   .timerFired 1 .fail .fail, .timerFired 0 .fail .fail, .timerFired 0 .fail .fail]

/-- A disciplined run used to witness the mutual-exclusion invariant. -/
def c7WitnessTrace : List Event :=
  [.start, .utteranceDone .fail, .timerFired 0 .fail .fail, .utteranceDone .fail,
   .timerFired 0 .fail .fail]

/-- Skipping all 3 + 5 + 4 questions of the three phases. -/
def c8Trace : List Event :=
  [.start, .utteranceDone .fail,
   .skip 1, .timerFired 1 .fail .fail,
   .skip 2, .timerFired 2 .fail .fail,
   .skip 3, .timerFired 3 .fail .fail,
   .skip 4, .timerFired 3 .fail .fail,
   .skip 5, .timerFired 4 .fail .fail,
   .skip 6, .timerFired 5 .fail .fail,
   .skip 7, .timerFired 6 .fail .fail,
   .skip 8, .timerFired 7 .fail .fail,
   .skip 9, .timerFired 7 .fail .fail,
   .skip 10, .timerFired 8 .fail .fail,
   .skip 11, .timerFired 9 .fail .fail,
   .skip 12, .timerFired 10 .fail .fail,
   .utteranceDone .fail,
   .timerFired 10 .fail .fail]

/-- A listening turn of the speech-input adapter that emits one result. -/
def c10WitnessTrace : List RecEvent :=
  [.setListening true, .engineStart, .result [⟨true, "hello there"⟩], .silence]

/-- A recognition state with a pending silence timer and accumulated text. -/
def c9ElapseState : RecState :=
  { initRecState with silenceTimer := some 1500, finalTranscript := "good evening " }

/-! ## String lemmas -/

/-- The first element surviving `dropWhile p` does not satisfy `p`. -/
theorem head_dropWhile_false (p : α → Bool) :
    ∀ (l : List α) (a : α) (t : List α), l.dropWhile p = a :: t → p a = false := by
  intro l
  induction l with
  | nil => intro a t h; simp [List.dropWhile] at h
  | cons x xs ih =>
    intro a t h
    cases hx : p x with
    | true =>
      simp only [List.dropWhile, hx] at h
      exact ih a t h
    | false =>
      simp only [List.dropWhile, hx] at h
      have h1 : x = a := (List.cons.injEq _ _ _ _ ▸ h).1
      rw [← h1]
      exact hx

/-- A nonempty trimmed string contains a non-whitespace character. -/
theorem jsTrim_has_content (u : String) (h : jsTrim u ≠ "") :
    ((jsTrim u).data.any fun c => !(isWs c)) = true := by
  show (((u.data.dropWhile isWs).reverse.dropWhile isWs).reverse.any fun c => !(isWs c)) = true
  cases hBcons : (u.data.dropWhile isWs).reverse.dropWhile isWs with
  | nil =>
    exfalso
    apply h
    show String.mk ((u.data.dropWhile isWs).reverse.dropWhile isWs).reverse = ""
    rw [hBcons]
    rfl
  | cons b bs =>
    have hb : isWs b = false := head_dropWhile_false isWs _ b bs hBcons
    simp only [List.any_eq_true]
    exact ⟨b, by simp, by simp [hb]⟩

/-- `dropWhile` yields `[]` exactly when every element satisfies the test. -/
theorem dropWhile_nil_iff (p : α → Bool) (l : List α) :
    l.dropWhile p = [] ↔ ∀ x ∈ l, p x = true := by
  induction l with
  | nil => simp
  | cons a t ih =>
    cases ha : p a with
    | true =>
      simp only [List.dropWhile, ha]
      rw [ih]
      constructor
      · intro hall x hx
        rcases List.mem_cons.mp hx with h1 | h1
        · rw [h1]; exact ha
        · exact hall x h1
      · intro hall x hx
        exact hall x (List.mem_cons_of_mem _ hx)
    | false => simp [List.dropWhile, ha]

/-- Trimming gives the empty string exactly when the text is all whitespace. -/
theorem jsTrim_eq_empty_iff (u : String) :
    jsTrim u = "" ↔ ∀ c ∈ u.data, isWs c = true := by
  constructor
  · intro h c hc
    have hdata : ((u.data.dropWhile isWs).reverse.dropWhile isWs).reverse = ([] : List Char) :=
      congrArg String.data h
    have hB : (u.data.dropWhile isWs).reverse.dropWhile isWs = [] :=
      List.reverse_eq_nil_iff.mp hdata
    have hAll : ∀ x ∈ (u.data.dropWhile isWs).reverse, isWs x = true :=
      (dropWhile_nil_iff _ _).mp hB
    by_cases hmem : c ∈ u.data.dropWhile isWs
    · exact hAll c (List.mem_reverse.mpr hmem)
    · -- `c` was consumed by the first `dropWhile`, hence lies in the taken prefix
      have hsplit := List.takeWhile_append_dropWhile (p := isWs) (l := u.data)
      have hc2 : c ∈ u.data.takeWhile isWs ++ u.data.dropWhile isWs := by
        rw [hsplit]; exact hc
      rcases List.mem_append.mp hc2 with h1 | h2
      · exact List.mem_takeWhile_imp h1
      · exact absurd h2 hmem
  · intro h
    have h1 : u.data.dropWhile isWs = [] := (dropWhile_nil_iff _ _).mpr h
    show String.mk ((u.data.dropWhile isWs).reverse.dropWhile isWs).reverse = ""
    rw [h1]
    rfl

/-! ## Speech Input Adapter theorems -/

theorem string_data_append (a b : String) : (a ++ b).data = a.data ++ b.data := rfl

/-- Characters of the accumulator survive the final-text fold. -/
theorem finalText_acc_mem (segs : List RecSegment) :
    ∀ (acc : String) (ch : Char), ch ∈ acc.data →
      ch ∈ (segs.foldl
        (fun a g => if g.isFinal then a ++ jsTrim g.text ++ " " else a) acc).data := by
  induction segs with
  | nil => intro acc ch h; exact h
  | cons g gs ih =>
    intro acc ch h
    simp only [List.foldl]
    by_cases hf : g.isFinal = true
    · rw [if_pos hf]
      apply ih
      rw [string_data_append, string_data_append]
      exact List.mem_append_left _ (List.mem_append_left _ h)
    · rw [if_neg hf]
      exact ih acc ch h

/-- A final segment with non-whitespace content makes the accumulated final
text non-blank. -/
theorem finalText_has_content (segs : List RecSegment) (g : RecSegment)
    (hg : g ∈ segs) (hf : g.isFinal = true) (hc : jsTrim g.text ≠ "") :
    jsTrim (finalTextOf segs) ≠ "" := by
  obtain ⟨l1, l2, hsplit⟩ := List.append_of_mem hg
  obtain ⟨ch, hchmem, hchw⟩ := List.any_eq_true.mp (jsTrim_has_content g.text hc)
  have hmem2 : ch ∈ (finalTextOf segs).data := by
    rw [hsplit]
    unfold finalTextOf
    rw [List.foldl_append]
    simp only [List.foldl]
    rw [if_pos hf]
    apply finalText_acc_mem
    rw [string_data_append, string_data_append]
    exact List.mem_append_left _ (List.mem_append_right _ hchmem)
  intro hempty
  have hall := (jsTrim_eq_empty_iff _).mp hempty ch hmem2
  simp at hchw
  rw [hall] at hchw
  simp at hchw

/-- Given a blank-free trimmed text, trimming it again stays blank-free. -/
theorem jsTrim_jsTrim_ne (x : String) (h : jsTrim x ≠ "") : jsTrim (jsTrim x) ≠ "" := by
  intro hc
  obtain ⟨ch, hm, hw⟩ := List.any_eq_true.mp (jsTrim_has_content x h)
  have hall := (jsTrim_eq_empty_iff _).mp hc ch hm
  simp at hw
  rw [hall] at hw
  simp at hw

/-- A step that is not a turn boundary either leaves the emission log and
the processing flag alone, or emits exactly one result while flipping the
processing flag from off to on. -/
theorem recStep_emit (s : RecState) (e : RecEvent) (hb : isTurnBoundary e = false) :
    ((recStep s e).emitted = s.emitted ∧ (recStep s e).processing = s.processing) ∨
    ((recStep s e).emitted.length = s.emitted.length + 1 ∧ s.processing = false ∧
      (recStep s e).processing = true) := by
  cases e with
  | engineStart => simp [isTurnBoundary] at hb
  | setListening b => simp [isTurnBoundary] at hb
  | result segs =>
    left
    cases hp : s.processing with
    | true => simp [recStep, recOnResult, hp]
    | false =>
      by_cases h1 : (jsTrim (finalTextOf segs) == "") = true <;>
        by_cases h2 : (jsTrim (interimTextOf segs) == "") = true <;>
          simp [recStep, recOnResult, hp, h1, h2]
  | silence =>
    cases hst : s.silenceTimer with
    | none => left; simp [recStep, recSilenceElapse, hst]
    | some d =>
      by_cases hp : s.processing = true
      · left; simp [recStep, recSilenceElapse, hst, hp]
      · have hp' : s.processing = false := eq_false_of_ne_true hp
        by_cases hne : jsTrim s.finalTranscript = ""
        · left; simp [recStep, recSilenceElapse, hst, hp', hne]
        · by_cases hpg : jsTrim (jsTrim s.finalTranscript) = ""
          · left
            simp [recStep, recSilenceElapse, hst, hp', hne, processTranscript,
              clearRecTimeouts, hpg]
          · right
            simp [recStep, recSilenceElapse, hst, hp', hne, processTranscript,
              clearRecTimeouts, hpg]
  | engineError e' =>
    left
    cases e' <;> by_cases hl : s.listening = true <;>
      simp [recStep, recOnError, scheduleRestart, hl]
  | engineEnd =>
    left
    by_cases h : (s.listening && (s.errorMsg == none) && !s.processing) = true <;>
      simp [recStep, recOnEnd, scheduleRestart, h]
  | restartElapse => left; simp [recStep, recRestartElapse]

/-- No event sequence free of turn boundaries emits more than one result. -/
theorem recRun_turn_bound : ∀ (es : List RecEvent) (s : RecState),
    (es.all fun e => !(isTurnBoundary e)) = true →
    (recRun s es).emitted.length ≤
      s.emitted.length + (if s.processing = true then 0 else 1) := by
  intro es
  induction es with
  | nil =>
    intro s _
    cases hp : s.processing <;> simp [recRun, hp]
  | cons e es ih =>
    intro s h
    simp only [List.all_cons, Bool.and_eq_true] at h
    obtain ⟨he, hes⟩ := h
    have hb : isTurnBoundary e = false := by
      cases hx : isTurnBoundary e
      · rfl
      · rw [hx] at he; simp at he
    have hih := ih (recStep s e) hes
    show (recRun (recStep s e) es).emitted.length ≤ _
    rcases recStep_emit s e hb with ⟨h1, h2⟩ | ⟨h1, h2, h3⟩
    · rw [h1, h2] at hih
      exact hih
    · rw [h1, h3] at hih
      rw [h2]
      simp at hih
      simp
      omega

/-- Claim C9 (amended): a final recognition segment with non-whitespace
content, received while finalization has not begun, restarts the 1.5 second
silence timer; when the timer elapses on a non-blank accumulated transcript
the transcript is finalized and emitted as one result, capture is stopped
and the accumulated transcript is reset; and within one listening turn at
most one result is ever emitted. -/
theorem C9_silence_finalization :
    (∀ (s : RecState) (segs : List RecSegment),
        s.processing = false →
        (segs.any fun g => g.isFinal && !(jsTrim g.text == "")) = true →
        (recOnResult s segs).silenceTimer = some 1500) ∧
    (∀ s : RecState, s.processing = false → s.silenceTimer.isSome = true →
        jsTrim s.finalTranscript ≠ "" →
        (recSilenceElapse s).emitted = s.emitted ++ [jsTrim (jsTrim s.finalTranscript)] ∧
        (recSilenceElapse s).active = false ∧
        (recSilenceElapse s).stopCalls = s.stopCalls + 1 ∧
        (recSilenceElapse s).finalTranscript = "" ∧
        (recSilenceElapse s).transcript = "" ∧
        (recSilenceElapse s).silenceTimer = none ∧
        (recSilenceElapse s).processing = true) ∧
    (∀ (s : RecState) (es : List RecEvent), s.processing = false →
        (es.all fun e => !(isTurnBoundary e)) = true →
        (recRun s es).emitted.length ≤ s.emitted.length + 1) := by
  refine ⟨?_, ?_, ?_⟩
  · intro s segs hproc hany
    obtain ⟨g, hmem, hprop⟩ := List.any_eq_true.mp hany
    rw [Bool.and_eq_true] at hprop
    obtain ⟨hf, hne'⟩ := hprop
    have hne : jsTrim g.text ≠ "" := by
      intro hx; rw [hx] at hne'; simp at hne'
    have hF : jsTrim (finalTextOf segs) ≠ "" := finalText_has_content segs g hmem hf hne
    have hFb : (jsTrim (finalTextOf segs) == "") = false := by
      simp [hF]
    cases h2 : (jsTrim (interimTextOf segs) == "") <;>
      simp [recOnResult, hproc, hFb, h2]
  · intro s hproc hsome hne
    cases hst : s.silenceTimer with
    | none => rw [hst] at hsome; simp at hsome
    | some d =>
      have hg : ((jsTrim s.finalTranscript == "") || s.processing) = false := by
        simp [hproc, hne]
      have hpg : (jsTrim (jsTrim s.finalTranscript) == "") = false := by
        simp [jsTrim_jsTrim_ne _ hne]
      simp [recSilenceElapse, hst, hg, processTranscript, hproc, hpg, clearRecTimeouts,
        hne]
  · intro s es hproc hall
    have := recRun_turn_bound es s hall
    rw [hproc] at this
    simpa using this

/-- Witness for C9 at concrete segments, a concrete elapsing state and a
concrete turn. -/
theorem C9_silence_finalization_witness :
    (initRecState.processing = false ∧
      (([⟨true, "good evening"⟩] : List RecSegment).any
        fun g => g.isFinal && !(jsTrim g.text == "")) = true ∧
      c9ElapseState.processing = false ∧
      c9ElapseState.silenceTimer.isSome = true ∧
      jsTrim c9ElapseState.finalTranscript ≠ "" ∧
      (([RecEvent.silence, RecEvent.engineEnd].all fun e => !(isTurnBoundary e)) = true)) ∧
    (recOnResult initRecState [⟨true, "good evening"⟩]).silenceTimer = some 1500 ∧
    (recSilenceElapse c9ElapseState).emitted =
      c9ElapseState.emitted ++ [jsTrim (jsTrim c9ElapseState.finalTranscript)] ∧
    (recRun initRecState [RecEvent.silence, RecEvent.engineEnd]).emitted.length ≤
      initRecState.emitted.length + 1 := by
  refine ⟨⟨rfl, by decide, rfl, rfl, by decide, by decide⟩, ?_, ?_, ?_⟩
  · exact C9_silence_finalization.1 initRecState [⟨true, "good evening"⟩] rfl (by decide)
  · exact (C9_silence_finalization.2.1 c9ElapseState rfl rfl (by decide)).1
  · exact C9_silence_finalization.2.2 initRecState [RecEvent.silence, RecEvent.engineEnd]
      rfl (by decide)

/-- Counterexample to claim C9 as stated: a final segment whose text is
whitespace-only arrives during capture, yet no silence timer is pending
afterwards — the restart only happens for non-blank final text. -/
theorem C9_whitespace_final_counterexample :
    ((([⟨true, "   "⟩] : List RecSegment).any fun g => g.isFinal) = true) ∧
    (recOnStart (recSetListening initRecState true)).processing = false ∧
    (recStep (recOnStart (recSetListening initRecState true))
      (.result [⟨true, "   "⟩])).silenceTimer = none := by
  decide

/-- Every step only appends well-formed results: nonempty trimmed texts. -/
theorem recStep_emitted_wf (s : RecState) (e : RecEvent) :
    ∀ t ∈ (recStep s e).emitted,
      t ∈ s.emitted ∨ ∃ u, t = jsTrim u ∧ jsTrim u ≠ "" := by
  intro t ht
  cases e with
  | engineStart => left; exact ht
  | setListening b =>
    left
    cases hb : b with
    | true =>
      rw [hb] at ht
      simpa [recStep, recSetListening] using ht
    | false =>
      rw [hb] at ht
      by_cases ha : s.active = true <;>
        simpa [recStep, recSetListening, clearRecTimeouts, ha] using ht
  | result segs =>
    left
    cases hp : s.processing with
    | true => simpa [recStep, recOnResult, hp] using ht
    | false =>
      by_cases h1 : (jsTrim (finalTextOf segs) == "") = true <;>
        by_cases h2 : (jsTrim (interimTextOf segs) == "") = true <;>
          simpa [recStep, recOnResult, hp, h1, h2] using ht
  | silence =>
    cases hst : s.silenceTimer with
    | none => left; simpa [recStep, recSilenceElapse, hst] using ht
    | some d =>
      by_cases hp : s.processing = true
      · left; simpa [recStep, recSilenceElapse, hst, hp] using ht
      · have hp' : s.processing = false := eq_false_of_ne_true hp
        by_cases hne : jsTrim s.finalTranscript = ""
        · left; simpa [recStep, recSilenceElapse, hst, hp', hne] using ht
        · by_cases hpg : jsTrim (jsTrim s.finalTranscript) = ""
          · left
            simpa [recStep, recSilenceElapse, hst, hp', hne, processTranscript,
              clearRecTimeouts, hpg] using ht
          · simp [recStep, recSilenceElapse, hst, hp', hne, processTranscript,
              clearRecTimeouts, hpg] at ht
            rcases ht with ht | ht
            · left; exact ht
            · right
              exact ⟨jsTrim s.finalTranscript, ht, hpg⟩
  | engineError e' =>
    left
    cases e' <;> by_cases hl : s.listening = true <;>
      simpa [recStep, recOnError, scheduleRestart, hl] using ht
  | engineEnd =>
    left
    by_cases h : (s.listening && (s.errorMsg == none) && !s.processing) = true <;>
      simpa [recStep, recOnEnd, scheduleRestart, h] using ht
  | restartElapse => left; simpa [recStep, recRestartElapse] using ht

/-- Along any run, every emitted result is a nonempty trimmed text. -/
theorem recRun_emitted_wf : ∀ (es : List RecEvent) (s : RecState),
    (∀ t ∈ s.emitted, ∃ u, t = jsTrim u ∧ jsTrim u ≠ "") →
    ∀ t ∈ (recRun s es).emitted, ∃ u, t = jsTrim u ∧ jsTrim u ≠ "" := by
  intro es
  induction es with
  | nil => intro s h; exact h
  | cons e es ih =>
    intro s h
    apply ih
    intro t ht
    rcases recStep_emitted_wf s e t ht with h1 | h1
    · exact h t h1
    · exact h1

/-- Claim C10: the speech-input adapter never emits a result event whose
text is empty or whitespace-only; every emitted text is nonempty and
contains a non-whitespace character. -/
theorem C10_no_blank_results (es : List RecEvent) (t : String)
    (h : t ∈ (recRun initRecState es).emitted) :
    t ≠ "" ∧ (t.data.any fun c => !(isWs c)) = true := by
  obtain ⟨u, hu, hune⟩ :=
    recRun_emitted_wf es initRecState (by intro t ht; simp [initRecState] at ht) t h
  subst hu
  exact ⟨hune, jsTrim_has_content u hune⟩

/-- Witness for C10: a concrete turn emitting one result. -/
theorem C10_no_blank_results_witness :
    ("hello there" ∈ (recRun initRecState c10WitnessTrace).emitted) ∧
    ("hello there" ≠ "" ∧
      (("hello there").data.any fun c => !(isWs c)) = true) :=
  ⟨by decide, C10_no_blank_results c10WitnessTrace "hello there" (by decide)⟩

/-! ## Simple session theorems -/

/-- Claim C2: the explicit end-interview action, invoked in any state,
cancels in-flight speech synthesis, stops all media tracks of the held
stream, clears every pending timer, and invokes the external termination
callback, leaving zero active media tracks and zero pending timers. -/
theorem C2_end_interview_teardown (s : SessionState) :
    (handleEndInterview s).isInterviewEnded = true ∧
    (handleEndInterview s).currentUtterance = none ∧
    (handleEndInterview s).aiSpeaking = false ∧
    (handleEndInterview s).isListening = false ∧
    (handleEndInterview s).timers = [] ∧
    activeTrackCount (handleEndInterview s) = 0 ∧
    (handleEndInterview s).stream = none ∧
    (handleEndInterview s).releasedTracks =
      s.releasedTracks ++
        (match s.stream with
         | some ts => ts.map fun t => { t with stopped := true }
         | none => []) ∧
    (handleEndInterview s).onEndCalled = true := by
  cases h : s.stream <;>
    simp [handleEndInterview, clearAllTimeouts, activeTrackCount, h]

/-- Claim C6: submitting an answer (transcribed text or the skip sentinel)
with no active question, or after the termination flag is set, leaves the
state unchanged. -/
theorem C6_submit_noop (s : SessionState) (a : String) (n m : Nat)
    (h : s.currentQuestion = none ∨ s.isInterviewEnded = true) :
    handleResponse s a n = s ∧ handleManualNext s m = s := by
  rcases h with h | h
  · rw [handleResponse, handleManualNext, h]
    exact ⟨rfl, rfl⟩
  · cases hq : s.currentQuestion <;>
      rw [handleResponse, handleManualNext, hq] <;> simp [h]

/-- Witness for C6 at the initial state, which has no active question. -/
theorem C6_submit_noop_witness :
    (initialState.currentQuestion = none ∨ initialState.isInterviewEnded = true) ∧
    (handleResponse initialState "hello" 5 = initialState ∧
      handleManualNext initialState 6 = initialState) :=
  ⟨Or.inl rfl, C6_submit_noop initialState "hello" 5 6 (Or.inl rfl)⟩

/-- Claim C8: skipping all 3 + 5 + 4 questions takes the session to the
feedback phase with exactly 12 responses, each carrying the skip sentinel. -/
theorem C8_skip_everything :
    (runEvents initialState c8Trace).interviewPhase = InterviewPhase.feedback ∧
    (runEvents initialState c8Trace).responses.length = 12 ∧
    ((runEvents initialState c8Trace).responses.all fun r => r.answer == skipSentinel) = true ∧
    (runEvents initialState c8Trace).questionCounts.sum = 12 := by
  decide

/-- Counterexample to claim C1 as stated: submitting a second skip for the
same question during the settle delay drives the introduction counter to 4,
past its budget of 3, while the session is still in the introduction phase
with four logged responses. -/
theorem C1_budget_counterexample :
    3 < (runEvents initialState c1Trace).questionCounts.introduction ∧
    (runEvents initialState c1Trace).interviewPhase = InterviewPhase.introduction ∧
    (runEvents initialState c1Trace).responses.length = 4 := by
  decide

/-- Counterexample to claim C7 as stated: a skip while the question is being
spoken leaves the cancelled utterance's handler registered; that handler
schedules listening, and the settle timer then starts the next question's
speech while the listening flag is still set, so both flags hold. -/
theorem C7_mutex_counterexample :
    (runEvents initialState c7Trace).aiSpeaking = true ∧
    (runEvents initialState c7Trace).isListening = true := by
  decide

/-- A question batch is never empty: either the fetch produced a nonempty
list or the fallback table (of sizes 3, 5, 4) is substituted. -/
theorem fetchedBatch_ne_nil (p : QPhase) (r : FetchResult) : fetchedBatch p r ≠ [] := by
  cases r with
  | fail => cases p <;> simp [fetchedBatch, fallbackQuestions]
  | ok qs =>
    cases p <;> (
      simp only [fetchedBatch]
      by_cases h : qs.length > 0
      · simp only [h, if_true]
        exact List.ne_nil_of_length_pos h
      · simp [h, fallbackQuestions])

/-- Claim C5: a failed (or empty) batch fetch substitutes the fixed fallback
table of 3/5/4 questions for the phase and the session continues; in
particular, after a failed introduction fetch the three fallback questions
are each answered exactly once and the session proceeds to the technical
phase. -/
theorem C5_fallback_on_failure :
    (∀ (s : SessionState) (p : QPhase) (r : FetchResult),
        s.isInterviewEnded = false → (r = .fail ∨ r = .ok []) →
        (generateQuestionsForPhase s p r).questions = fallbackQuestions p ∧
        (generateQuestionsForPhase s p r).currentQuestion = (fallbackQuestions p).head? ∧
        (fallbackQuestions p).length = p.budget) ∧
    ((runEvents initialState c5Trace).responses.map (fun rr => rr.questionId) = [1, 2, 3] ∧
      (runEvents initialState c5Trace).responses.length = 3 ∧
      (runEvents initialState c5Trace).interviewPhase = InterviewPhase.technical) := by
  constructor
  · intro s p r hend hr
    rcases hr with h | h <;> subst h <;> cases p <;>
      simp [generateQuestionsForPhase, fetchedBatch, fallbackQuestions, hend,
        createTimeout, QPhase.budget]
  · exact ⟨by decide, by decide, by decide⟩

/-- Claim C4: when a phase's counter has reached its budget, the next
phase's batch (fetched, or the fallback on failure) is installed in the very
step that starts the transition announcement, that step schedules no
question speech itself, and the first new-phase question is scheduled only
by the completion of the announcement — on both fetch outcomes. -/
theorem C4_transition_before_announcement :
    (∀ (s : SessionState) (c : QuestionCounts) (rs : List Response)
        (r r2 : FetchResult) (nr : NextResult),
        s.isInterviewEnded = false → s.interviewPhase = InterviewPhase.introduction →
        3 ≤ c.introduction →
        transitionObligation s c rs .technical techTransitionText r r2 nr) ∧
    (∀ (s : SessionState) (c : QuestionCounts) (rs : List Response)
        (r r2 : FetchResult) (nr : NextResult),
        s.isInterviewEnded = false → s.interviewPhase = InterviewPhase.technical →
        5 ≤ c.technical →
        transitionObligation s c rs .behavioral behavTransitionText r r2 nr) := by
  constructor
  · intro s c rs r r2 nr hend hph hc
    obtain ⟨q, qs, hqs⟩ : ∃ q qs, fetchedBatch QPhase.technical r = q :: qs := by
      cases hB : fetchedBatch .technical r with
      | nil => exact absurd hB (fetchedBatch_ne_nil _ _)
      | cons a l => exact ⟨a, l, rfl⟩
    have hnot : ¬(c.introduction < 3) := by omega
    refine ⟨q, qs, hqs, ?_, ?_, ?_, ?_, ?_, ?_, ?_, ?_⟩ <;>
      simp [determineNextStep, hend, hph, hnot, transitionToPhase, speakQuestion, hqs,
        applyEvent, afterUtterance, createTimeout, QPhase.toPhase]
  · intro s c rs r r2 nr hend hph hc
    obtain ⟨q, qs, hqs⟩ : ∃ q qs, fetchedBatch QPhase.behavioral r = q :: qs := by
      cases hB : fetchedBatch .behavioral r with
      | nil => exact absurd hB (fetchedBatch_ne_nil _ _)
      | cons a l => exact ⟨a, l, rfl⟩
    have hnot : ¬(c.technical < 5) := by omega
    refine ⟨q, qs, hqs, ?_, ?_, ?_, ?_, ?_, ?_, ?_, ?_⟩ <;>
      simp [determineNextStep, hend, hph, hnot, transitionToPhase, speakQuestion, hqs,
        applyEvent, afterUtterance, createTimeout, QPhase.toPhase]

/-- Witness for C4: both transitions at concrete states with a failing
batch fetch. -/
theorem C4_transition_before_announcement_witness :
    (({ initialState with interviewPhase := InterviewPhase.introduction }).isInterviewEnded
        = false ∧
      3 ≤ (⟨3, 0, 0⟩ : QuestionCounts).introduction ∧
      5 ≤ (⟨3, 5, 0⟩ : QuestionCounts).technical) ∧
    transitionObligation { initialState with interviewPhase := InterviewPhase.introduction }
      ⟨3, 0, 0⟩ [] .technical techTransitionText .fail .fail .fail ∧
    transitionObligation { initialState with interviewPhase := InterviewPhase.technical }
      ⟨3, 5, 0⟩ [] .behavioral behavTransitionText .fail .fail .fail :=
  ⟨⟨rfl, by decide, by decide⟩,
    C4_transition_before_announcement.1
      { initialState with interviewPhase := InterviewPhase.introduction }
      ⟨3, 0, 0⟩ [] .fail .fail .fail rfl rfl (by decide),
    C4_transition_before_announcement.2
      { initialState with interviewPhase := InterviewPhase.technical }
      ⟨3, 5, 0⟩ [] .fail .fail .fail rfl rfl (by decide)⟩

/-! ## Response-log accounting (C3) -/

theorem mem_of_getElem? {l : List α} {i : Nat} {a : α} (h : l[i]? = some a) : a ∈ l := by
  rw [← List.get?_eq_getElem?] at h
  exact List.get?_mem h

theorem bumpCounts_sum (c : QuestionCounts) (cat : Category)
    (h : cat ≠ Category.followUp) : (bumpCounts c cat).sum = c.sum + 1 := by
  cases cat <;> simp [bumpCounts, QuestionCounts.sum] at * <;> omega

theorem fallback_cat (p : QPhase) : ∀ q ∈ fallbackQuestions p, q.category = p.toCategory := by
  cases p <;> decide

theorem toCategory_ne_followUp (p : QPhase) : p.toCategory ≠ Category.followUp := by
  cases p <;> simp [QPhase.toCategory]

theorem fetchedBatch_cat (p : QPhase) (r : FetchResult) (h : batchOK p r = true) :
    ∀ q ∈ fetchedBatch p r, q.category = p.toCategory := by
  cases r with
  | fail =>
    intro q hq
    exact fallback_cat p q (by simpa [fetchedBatch] using hq)
  | ok qs =>
    intro q hq
    simp only [fetchedBatch] at hq
    by_cases hl : qs.length > 0
    · rw [if_pos hl] at hq
      have hall : ∀ x ∈ qs, x.category = p.toCategory := by simpa [batchOK] using h
      exact hall q hq
    · rw [if_neg hl] at hq
      exact fallback_cat p q hq

/-- The accounting invariant: the response log is as long as the counter sum,
and no installed or current question has the untracked follow-up category. -/
def sumInv (s : SessionState) : Prop :=
  s.responses.length = s.questionCounts.sum ∧ catInv s

theorem sumInv_handleResponse (s : SessionState) (a : String) (n : Nat)
    (h : sumInv s) : sumInv (handleResponse s a n) := by
  obtain ⟨hsum, hq, hcq⟩ := h
  cases hCQ : s.currentQuestion with
  | none =>
    simp only [handleResponse, hCQ]
    exact ⟨hsum, hq, hcq⟩
  | some cq =>
    by_cases he : s.isInterviewEnded = true
    · simp [handleResponse, hCQ, he]
      exact ⟨hsum, hq, hcq⟩
    · have he' : s.isInterviewEnded = false := eq_false_of_ne_true he
      have hcat : cq.category ≠ Category.followUp := hcq cq hCQ
      simp only [handleResponse, hCQ, he', Bool.false_eq_true, if_false, createTimeout]
      refine ⟨?_, ?_, ?_⟩
      · simp only [List.length_append, List.length_singleton]
        rw [bumpCounts_sum _ _ hcat, hsum]
      · intro q' hq'
        obtain ⟨q0, hq0, hfq⟩ := List.mem_map.mp hq'
        have : q'.category = q0.category := by
          rw [← hfq]
          by_cases hid : q0.id = cq.id <;> simp [hid]
        rw [this]
        exact hq q0 hq0
      · intro q hqe
        cases hqe
        exact hcat

theorem sumInv_afterUtterance (s : SessionState) (cont : Continuation) (r : FetchResult)
    (hok : cont = Continuation.afterVoiceIntro → batchOK .introduction r = true)
    (h : sumInv s) : sumInv (afterUtterance s cont r) := by
  obtain ⟨hsum, hq, hcq⟩ := h
  by_cases he : s.isInterviewEnded = true
  · simp only [afterUtterance, he, if_true]
    exact ⟨hsum, hq, hcq⟩
  · have he' : s.isInterviewEnded = false := eq_false_of_ne_true he
    cases cont with
    | plain =>
      by_cases hmic : s.isMicOn ∧ s.interviewPhase ≠ InterviewPhase.voiceIntro <;>
        simp [afterUtterance, he', hmic, createTimeout] <;>
        exact ⟨hsum, hq, hcq⟩
    | afterVoiceIntro =>
      have hb := hok rfl
      have hcatall := fetchedBatch_cat .introduction r hb
      cases hqs : fetchedBatch .introduction r with
      | nil => exact absurd hqs (fetchedBatch_ne_nil _ _)
      | cons q0 qrest =>
        simp [afterUtterance, he', generateQuestionsForPhase, hqs, createTimeout]
        refine ⟨hsum, ?_, ?_⟩
        · intro q' hq'
          have := hcatall q' (hqs ▸ hq')
          rw [this]
          exact toCategory_ne_followUp _
        · intro q' hq'
          cases hq'
          have := hcatall q0 (by rw [hqs]; exact List.mem_cons_self _ _)
          rw [this]
          exact toCategory_ne_followUp _
    | afterTransition q =>
      simp [afterUtterance, he', createTimeout]
      exact ⟨hsum, hq, hcq⟩
    | afterThankYou =>
      simp [afterUtterance, he', createTimeout]
      exact ⟨hsum, hq, hcq⟩
    | contNone =>
      simp [afterUtterance, he']
      exact ⟨hsum, hq, hcq⟩

theorem sumInv_transition (s : SessionState) (p : QPhase) (r : FetchResult)
    (hb : batchOK p r = true) (h : sumInv s) : sumInv (transitionToPhase s p r) := by
  obtain ⟨hsum, _, _⟩ := h
  have hcatall := fetchedBatch_cat p r hb
  cases hqs : fetchedBatch p r with
  | nil => exact absurd hqs (fetchedBatch_ne_nil _ _)
  | cons q0 qrest =>
    by_cases he : s.isInterviewEnded = true <;>
      simp [transitionToPhase, speakQuestion, hqs, he] <;>
      refine ⟨hsum, ?_, ?_⟩
    · intro q' hq'
      have := hcatall q' (hqs ▸ hq')
      rw [this]
      exact toCategory_ne_followUp _
    · intro q' hq'
      cases hq'
      have := hcatall q0 (by rw [hqs]; exact List.mem_cons_self _ _)
      rw [this]
      exact toCategory_ne_followUp _
    · intro q' hq'
      have := hcatall q' (hqs ▸ hq')
      rw [this]
      exact toCategory_ne_followUp _
    · intro q' hq'
      cases hq'
      have := hcatall q0 (by rw [hqs]; exact List.mem_cons_self _ _)
      rw [this]
      exact toCategory_ne_followUp _

theorem sumInv_generateNext (s : SessionState) (p : QPhase) (rs : List Response)
    (nr : NextResult) (h : sumInv s) : sumInv (generateNextQuestionInPhase s p rs nr) := by
  obtain ⟨hsum, hq, hcq⟩ := h
  by_cases he : s.isInterviewEnded = true
  · simp only [generateNextQuestionInPhase, he, if_true]
    exact ⟨hsum, hq, hcq⟩
  · have he' : s.isInterviewEnded = false := eq_false_of_ne_true he
    cases nr with
    | fail =>
      simp [generateNextQuestionInPhase, he']
      exact ⟨hsum, hq, hcq⟩
    | ok id text =>
      by_cases ht : text = ""
      · simp [generateNextQuestionInPhase, he', ht]
        exact ⟨hsum, hq, hcq⟩
      · simp [generateNextQuestionInPhase, he', ht, createTimeout]
        refine ⟨hsum, ?_, ?_⟩
        · intro q' hq'
          rcases List.mem_append.mp hq' with h1 | h1
          · exact hq q' h1
          · rcases List.mem_singleton.mp h1 with rfl
            exact toCategory_ne_followUp p
        · intro q' hq'
          cases hq'
          exact toCategory_ne_followUp p

theorem sumInv_advance (s : SessionState) (p : QPhase) (rs : List Response)
    (nr : NextResult) (h : sumInv s) : sumInv (advanceWithinPhase s p rs nr) := by
  obtain ⟨hsum, hq, hcq⟩ := h
  cases hget : s.questions[s.currentQuestionIndex + 1]? with
  | some q1 =>
    simp [advanceWithinPhase, hget, createTimeout]
    refine ⟨hsum, hq, ?_⟩
    intro q' hq'
    cases hq'
    exact hq q1 (mem_of_getElem? hget)
  | none =>
    simp [advanceWithinPhase, hget]
    exact sumInv_generateNext _ _ _ _ ⟨hsum, hq, hcq⟩

theorem sumInv_determineNextStep (s : SessionState) (c : QuestionCounts)
    (rs : List Response) (r : FetchResult) (nr : NextResult)
    (hok : (s.interviewPhase = InterviewPhase.introduction → ¬ c.introduction < 3 →
        batchOK .technical r = true) ∧
      (s.interviewPhase = InterviewPhase.technical → ¬ c.technical < 5 →
        batchOK .behavioral r = true))
    (h : sumInv s) : sumInv (determineNextStep s c rs r nr) := by
  obtain ⟨hsum, hq, hcq⟩ := h
  by_cases he : s.isInterviewEnded = true
  · simp only [determineNextStep, he, if_true]
    exact ⟨hsum, hq, hcq⟩
  · have he' : s.isInterviewEnded = false := eq_false_of_ne_true he
    cases hph : s.interviewPhase with
    | introduction =>
      by_cases hc : c.introduction < 3
      · simp [determineNextStep, he', hph, hc]
        exact sumInv_advance _ _ _ _ ⟨hsum, hq, hcq⟩
      · simp [determineNextStep, he', hph, hc]
        exact sumInv_transition _ _ _ (hok.1 hph hc) ⟨hsum, hq, hcq⟩
    | technical =>
      by_cases hc : c.technical < 5
      · simp [determineNextStep, he', hph, hc]
        exact sumInv_advance _ _ _ _ ⟨hsum, hq, hcq⟩
      · simp [determineNextStep, he', hph, hc]
        exact sumInv_transition _ _ _ (hok.2 hph hc) ⟨hsum, hq, hcq⟩
    | behavioral =>
      by_cases hc : c.behavioral < 4
      · simp [determineNextStep, he', hph, hc]
        exact sumInv_advance _ _ _ _ ⟨hsum, hq, hcq⟩
      · simp [determineNextStep, he', hph, hc, endInterview, speakQuestion]
        exact ⟨hsum, hq, by intro q hqe; cases hqe⟩
    | instructions =>
      simp [determineNextStep, he', hph]
      exact ⟨hsum, hq, hcq⟩
    | voiceIntro =>
      simp [determineNextStep, he', hph]
      exact ⟨hsum, hq, hcq⟩
    | ending =>
      simp [determineNextStep, he', hph]
      exact ⟨hsum, hq, hcq⟩
    | feedback =>
      simp [determineNextStep, he', hph]
      exact ⟨hsum, hq, hcq⟩

theorem sumInv_step (s : SessionState) (e : Event) (hok : eventOK s e = true)
    (h : sumInv s) : sumInv (applyEvent s e) := by
  obtain ⟨hsum, hq, hcq⟩ := h
  cases e with
  | start =>
    by_cases hph : s.interviewPhase = InterviewPhase.instructions
    · by_cases he : s.isInterviewEnded = true <;>
        simp [applyEvent, hph, startInterview, speakQuestion, he] <;>
        exact ⟨hsum, hq, hcq⟩
    · simp [applyEvent, hph]
      exact ⟨hsum, hq, hcq⟩
  | utteranceDone r =>
    cases hu : s.currentUtterance with
    | none =>
      simp [applyEvent, hu]
      exact ⟨hsum, hq, hcq⟩
    | some u =>
      simp [applyEvent, hu]
      apply sumInv_afterUtterance
      · intro hcont
        simp only [eventOK, hu, hcont] at hok
        exact hok
      · exact ⟨hsum, hq, hcq⟩
  | cancelFired i r =>
    cases hu : s.cancelled[i]? with
    | none =>
      simp [applyEvent, hu]
      exact ⟨hsum, hq, hcq⟩
    | some u =>
      simp [applyEvent, hu]
      apply sumInv_afterUtterance
      · intro hcont
        simp only [eventOK, hu, hcont] at hok
        exact hok
      · exact ⟨hsum, hq, hcq⟩
  | timerFired i r nr =>
    cases hti : s.timers[i]? with
    | none =>
      simp [applyEvent, hti]
      exact ⟨hsum, hq, hcq⟩
    | some t =>
      by_cases he : s.isInterviewEnded = true
      · simp [applyEvent, hti, he]
        exact ⟨hsum, hq, hcq⟩
      · have he' : s.isInterviewEnded = false := eq_false_of_ne_true he
        cases htk : t.kind with
        | listen =>
          simp [applyEvent, hti, he', htk]
          exact ⟨hsum, hq, hcq⟩
        | speak q =>
          simp [applyEvent, hti, he', htk, speakQuestion]
          exact ⟨hsum, hq, hcq⟩
        | settle c rs =>
          simp [applyEvent, hti, he', htk]
          apply sumInv_determineNextStep
          · constructor
            · intro hph hc
              simp [eventOK, hti, htk] at hok
              rw [hph] at hok
              simp [hc] at hok
              exact hok
            · intro hph hc
              simp [eventOK, hti, htk] at hok
              rw [hph] at hok
              simp [hc] at hok
              exact hok
          · exact ⟨hsum, hq, hcq⟩
        | toFeedback =>
          simp [applyEvent, hti, he', htk]
          exact ⟨hsum, hq, hcq⟩
  | answer text now =>
    by_cases hl : s.isListening = true
    · simp [applyEvent, hl]
      exact sumInv_handleResponse s text now ⟨hsum, hq, hcq⟩
    · simp [applyEvent, hl]
      exact ⟨hsum, hq, hcq⟩
  | skip now =>
    cases hCQ : s.currentQuestion with
    | none =>
      simp [applyEvent, handleManualNext, hCQ]
      exact ⟨hsum, hq, hcq⟩
    | some cq =>
      by_cases he : s.isInterviewEnded = true
      · simp [applyEvent, handleManualNext, hCQ, he]
        exact ⟨hsum, hq, hcq⟩
      · have he' : s.isInterviewEnded = false := eq_false_of_ne_true he
        simp [applyEvent, handleManualNext, hCQ, he']
        exact sumInv_handleResponse _ _ _ ⟨hsum, hq, by
          intro q hqe
          cases hqe
          exact hcq cq hCQ⟩
  | endClick =>
    cases hstr : s.stream <;>
      simp [applyEvent, handleEndInterview, clearAllTimeouts, hstr] <;>
      exact ⟨hsum, hq, by intro q hqe; cases hqe⟩
  | micToggle =>
    cases hstr : s.stream with
    | none =>
      simp [applyEvent, toggleMic, hstr]
      exact ⟨hsum, hq, hcq⟩
    | some ts =>
      by_cases hfil : (ts.filter fun t => t.kind == TrackKind.mic) = [] <;>
        simp [applyEvent, toggleMic, hstr, hfil] <;>
        exact ⟨hsum, hq, hcq⟩
  | camToggle =>
    cases hstr : s.stream with
    | none =>
      simp [applyEvent, toggleCamera, hstr]
      exact ⟨hsum, hq, hcq⟩
    | some ts =>
      by_cases hfil : (ts.filter fun t => t.kind == TrackKind.cam) = [] <;>
        simp [applyEvent, toggleCamera, hstr, hfil] <;>
        exact ⟨hsum, hq, hcq⟩
  | recognitionStop =>
    simp only [applyEvent]
    exact ⟨hsum, hq, hcq⟩
  | restart =>
    by_cases hph : s.interviewPhase = InterviewPhase.feedback
    · simp [applyEvent, hph, restartSession, clearAllTimeouts]
      exact ⟨rfl, fun q hqe => absurd hqe (List.not_mem_nil q), hcq⟩
    · simp [applyEvent, hph]
      exact ⟨hsum, hq, hcq⟩

theorem sumInv_run : ∀ (es : List Event) (s : SessionState),
    sumInv s → okRun s es = true → sumInv (runEvents s es) := by
  intro es
  induction es with
  | nil => intro s h _; exact h
  | cons e es ih =>
    intro s h hok
    simp only [okRun, Bool.and_eq_true] at hok
    exact ih (applyEvent s e) (sumInv_step s e hok.1 h) hok.2

/-- Claim C3: along every run respecting the remote-service contract, the
length of the response log equals the sum of the three per-phase counters:
answering appends one response and bumps exactly one counter, nothing else
touches either quantity, and the restart action resets both together. -/
theorem C3_responses_match_counts (es : List Event)
    (h : okRun initialState es = true) :
    (runEvents initialState es).responses.length =
      (runEvents initialState es).questionCounts.sum :=
  (sumInv_run es initialState
    ⟨rfl, by intro q hq; simp [initialState] at hq,
      by intro q hq; simp [initialState] at hq⟩ h).1

/-- Witness for C3: a concrete contract-respecting run with one answer. -/
theorem C3_responses_match_counts_witness :
    okRun initialState c3WitnessTrace = true ∧
    (runEvents initialState c3WitnessTrace).responses.length =
      (runEvents initialState c3WitnessTrace).questionCounts.sum :=
  ⟨by decide, C3_responses_match_counts c3WitnessTrace (by decide)⟩

/-- Witness for C5 at a concrete state and the failing fetch outcome. -/
theorem C5_fallback_on_failure_witness :
    (initialState.isInterviewEnded = false ∧
      ((FetchResult.fail = FetchResult.fail) ∨ (FetchResult.fail = FetchResult.ok []))) ∧
    ((generateQuestionsForPhase initialState .introduction .fail).questions =
        fallbackQuestions .introduction ∧
      (generateQuestionsForPhase initialState .introduction .fail).currentQuestion =
        (fallbackQuestions .introduction).head? ∧
      (fallbackQuestions .introduction).length = QPhase.budget .introduction) :=
  ⟨⟨rfl, Or.inl rfl⟩,
    C5_fallback_on_failure.1 initialState .introduction .fail rfl (Or.inl rfl)⟩

/-! ## The session invariant on disciplined runs (C1, C7) -/

theorem singleton_of_getElem (l : List α) (i : Nat) (x : α)
    (hle : l.length ≤ 1) (h : l[i]? = some x) : l = [x] ∧ i = 0 := by
  cases l with
  | nil => simp at h
  | cons a t =>
    cases t with
    | nil =>
      cases i with
      | zero =>
        simp at h
        exact ⟨by rw [h], rfl⟩
      | succ j => simp at h
    | cons b u => simp at hle

theorem all_feedback_and_none_nil (l : List Timer)
    (h1 : ∀ t ∈ l, isFeedbackT t = true) (h2 : ∀ t ∈ l, isFeedbackT t = false) :
    l = [] := by
  cases l with
  | nil => rfl
  | cons a t =>
    have := h1 a (List.mem_cons_self _ _)
    have := h2 a (List.mem_cons_self _ _)
    simp_all

/-- After `handleEndInterview` the phase-indexed invariant still holds: every
volatile resource is cleared and the ended flag discharges the counter
conditions. -/
theorem phaseInv_handleEndInterview (s : SessionState) (hPh : phaseInv s) :
    phaseInv (handleEndInterview s) := by
  have hqs : (handleEndInterview s).questions = s.questions := by
    cases hstr : s.stream <;> simp [handleEndInterview, clearAllTimeouts, hstr]
  have hcounts : (handleEndInterview s).questionCounts = s.questionCounts := by
    cases hstr : s.stream <;> simp [handleEndInterview, clearAllTimeouts, hstr]
  have hphase : (handleEndInterview s).interviewPhase = s.interviewPhase := by
    cases hstr : s.stream <;> simp [handleEndInterview, clearAllTimeouts, hstr]
  have hCQ : (handleEndInterview s).currentQuestion = none := by
    cases hstr : s.stream <;> simp [handleEndInterview, clearAllTimeouts, hstr]
  have hti : (handleEndInterview s).timers = [] := by
    cases hstr : s.stream <;> simp [handleEndInterview, clearAllTimeouts, hstr]
  have hutt : (handleEndInterview s).currentUtterance = none := by
    cases hstr : s.stream <;> simp [handleEndInterview, clearAllTimeouts, hstr]
  have hli : (handleEndInterview s).isListening = false := by
    cases hstr : s.stream <;> simp [handleEndInterview, clearAllTimeouts, hstr]
  have hend : (handleEndInterview s).isInterviewEnded = true := by
    cases hstr : s.stream <;> simp [handleEndInterview, clearAllTimeouts, hstr]
  have hNoT : ∀ (P : Timer → Prop), ∀ t ∈ (handleEndInterview s).timers, P t := by
    intro P t ht
    rw [hti] at ht
    exact absurd ht (List.not_mem_nil t)
  have hContAll : ∀ (P : Continuation → Prop), contOK (handleEndInterview s) P := by
    intro P u hu
    rw [hutt] at hu
    cases hu
  have hCQAll : ∀ (P : Question → Prop) (q : Question),
      (handleEndInterview s).currentQuestion = some q → P q := by
    intro P q hq
    rw [hCQ] at hq
    cases hq
  unfold phaseInv at hPh ⊢
  rw [hphase]
  cases hph : s.interviewPhase <;> rw [hph] at hPh
  case instructions =>
    obtain ⟨_, _, _, _, h5, h6⟩ := hPh
    exact ⟨hti, hutt, hli, hCQ, hqs ▸ h5, hcounts ▸ h6⟩
  case voiceIntro =>
    obtain ⟨_, _, _, h4, h5, _⟩ := hPh
    exact ⟨hti, hli, hCQ, hqs ▸ h4, hcounts ▸ h5, hContAll _⟩
  case introduction =>
    obtain ⟨⟨hq1, _⟩, h2, h3, _, _, _, _⟩ := hPh
    exact ⟨⟨fun q hq => hq1 q (hqs ▸ hq), hCQAll _⟩, hcounts ▸ h2, hcounts ▸ h3,
      fun _ => Or.inr hend, hNoT _, hContAll _, hNoT _⟩
  case technical =>
    obtain ⟨⟨hq1, _⟩, h2, _, _, _, _⟩ := hPh
    exact ⟨⟨fun q hq => hq1 q (hqs ▸ hq), hCQAll _⟩, hcounts ▸ h2,
      fun _ => Or.inr hend, hNoT _, hContAll _, hNoT _⟩
  case behavioral =>
    obtain ⟨⟨hq1, _⟩, _, _, _, _⟩ := hPh
    exact ⟨⟨fun q hq => hq1 q (hqs ▸ hq), hCQAll _⟩,
      fun _ => Or.inr hend, hNoT _, hContAll _, hNoT _⟩
  case ending =>
    exact ⟨hCQ, hli, hContAll _, hNoT _⟩
  case feedback =>
    exact ⟨hCQ, hli, hti, hutt⟩

theorem inv_handleEndInterview (s : SessionState) (hInv : Inv s) :
    Inv (handleEndInterview s) := by
  obtain ⟨hc, _, _, _, _, _, _, hi3, ht5, hb4, hPh⟩ := hInv
  have hcanc : (handleEndInterview s).cancelled = s.cancelled := by
    cases hstr : s.stream <;> simp [handleEndInterview, clearAllTimeouts, hstr]
  have hcounts : (handleEndInterview s).questionCounts = s.questionCounts := by
    cases hstr : s.stream <;> simp [handleEndInterview, clearAllTimeouts, hstr]
  have hti : (handleEndInterview s).timers = [] := by
    cases hstr : s.stream <;> simp [handleEndInterview, clearAllTimeouts, hstr]
  have hutt : (handleEndInterview s).currentUtterance = none := by
    cases hstr : s.stream <;> simp [handleEndInterview, clearAllTimeouts, hstr]
  have hA : (handleEndInterview s).aiSpeaking = false := by
    cases hstr : s.stream <;> simp [handleEndInterview, clearAllTimeouts, hstr]
  have hli : (handleEndInterview s).isListening = false := by
    cases hstr : s.stream <;> simp [handleEndInterview, clearAllTimeouts, hstr]
  refine ⟨?_, ?_, ?_, ?_, ?_, ?_, ?_, ?_, ?_, ?_, phaseInv_handleEndInterview s hPh⟩
  · rw [hcanc]; exact hc
  · rw [hA, hutt]; rfl
  · exact Or.inl hA
  · rw [hti]; simp
  · intro _; exact hti
  · intro hl; rw [hli] at hl; cases hl
  · intro _; exact ⟨hti, hutt, hA, hli⟩
  · rw [hcounts]; exact hi3
  · rw [hcounts]; exact ht5
  · rw [hcounts]; exact hb4

/-- Facts shared by the three per-phase branches of `handleResponse`. -/
theorem handleResponse_fields (s : SessionState) (a : String) (n : Nat) (cq : Question)
    (hCQ : s.currentQuestion = some cq) (he : s.isInterviewEnded = false) :
    (handleResponse s a n).questionCounts = bumpCounts s.questionCounts cq.category ∧
    (handleResponse s a n).timers =
      s.timers ++ [⟨.settle (bumpCounts s.questionCounts cq.category)
        (s.responses ++ [⟨cq.id, cq.text, a, n, 0⟩]), 2000⟩] ∧
    (handleResponse s a n).isListening = false ∧
    (handleResponse s a n).currentQuestion = some cq ∧
    (handleResponse s a n).questions =
      s.questions.map (fun q => if q.id = cq.id then { q with asked := true } else q) ∧
    (handleResponse s a n).interviewPhase = s.interviewPhase ∧
    (handleResponse s a n).currentUtterance = s.currentUtterance ∧
    (handleResponse s a n).aiSpeaking = s.aiSpeaking ∧
    (handleResponse s a n).isInterviewEnded = false ∧
    (handleResponse s a n).cancelled = s.cancelled := by
  refine ⟨?_, ?_, ?_, ?_, ?_, ?_, ?_, ?_, ?_, ?_⟩ <;>
    simp [handleResponse, hCQ, he, createTimeout]

/-- Submitting an answer from a quiet state (no timers pending, no utterance
in flight) preserves the invariant: the counter of the current phase was
strictly below its budget, and after the bump the settle timer carries the
new counters. -/
theorem inv_submit (s : SessionState) (a : String) (n : Nat) (hInv : Inv s)
    (hT : s.timers = []) (hA : s.aiSpeaking = false) :
    Inv (handleResponse s a n) := by
  obtain ⟨hc, hu, hm, htl, hsq, hlq, heq, hi3, ht5, hb4, hPh⟩ := hInv
  have hU : s.currentUtterance = none := by
    rw [hA] at hu
    cases hx : s.currentUtterance with
    | none => rfl
    | some u => rw [hx] at hu; simp at hu
  cases hCQ : s.currentQuestion with
  | none =>
    simp only [handleResponse, hCQ]
    exact ⟨hc, hu, hm, htl, hsq, hlq, heq, hi3, ht5, hb4, hPh⟩
  | some cq =>
    by_cases he : s.isInterviewEnded = true
    · simp [handleResponse, hCQ, he]
      exact ⟨hc, hu, hm, htl, hsq, hlq, heq, hi3, ht5, hb4, hPh⟩
    · have he' : s.isInterviewEnded = false := eq_false_of_ne_true he
      obtain ⟨hR1, hR2, hR3, hR4, hR5, hR6, hR7, hR8, hR9, hR10⟩ :=
        handleResponse_fields s a n cq hCQ he'
      have hps : pendingSettle s = false := by simp [pendingSettle, hT]
      have hPay : settlePayloadOK (handleResponse s a n) := by
        intro t ht c rs hk
        rw [hR2, hT] at ht
        simp at ht
        rw [ht] at hk
        simp at hk
        rw [hR1, hk.1]
      have hContV : ∀ (P : Continuation → Prop), contOK (handleResponse s a n) P := by
        intro P u huz
        rw [hR7, hU] at huz
        cases huz
      have hNoFB : noFeedbackT (handleResponse s a n) := by
        intro t ht
        rw [hR2, hT] at ht
        simp at ht
        rw [ht]
        rfl
      have hPend : pendingSettle (handleResponse s a n) = true := by
        simp [pendingSettle, hR2, hT, isSettleT]
      have hQcat : ∀ cat, (∀ q ∈ s.questions, q.category = cat) →
          ∀ q ∈ (handleResponse s a n).questions, q.category = cat := by
        intro cat hall q hq
        rw [hR5] at hq
        obtain ⟨q0, hq0, hfq⟩ := List.mem_map.mp hq
        have : q.category = q0.category := by
          rw [← hfq]
          by_cases hid : q0.id = cq.id <;> simp [hid]
        rw [this]
        exact hall q0 hq0
      have hCQcat : ∀ cat, cq.category = cat →
          ∀ q, (handleResponse s a n).currentQuestion = some q → q.category = cat := by
        intro cat hcat q hq
        rw [hR4] at hq
        cases hq
        exact hcat
      have hMain : (handleResponse s a n).questionCounts.introduction ≤ 3 ∧
          (handleResponse s a n).questionCounts.technical ≤ 5 ∧
          (handleResponse s a n).questionCounts.behavioral ≤ 4 ∧
          phaseInv (handleResponse s a n) := by
        cases hph : s.interviewPhase
        all_goals unfold phaseInv at hPh
        all_goals rw [hph] at hPh
        case instructions => rw [hPh.2.2.2.1] at hCQ; cases hCQ
        case voiceIntro => rw [hPh.2.2.1] at hCQ; cases hCQ
        case ending => rw [hPh.1] at hCQ; cases hCQ
        case feedback => rw [hPh.1] at hCQ; cases hCQ
        case introduction =>
          obtain ⟨⟨hq1, hcq1⟩, h2, h3, h4, _, _, _⟩ := hPh
          have hcat := hcq1 cq hCQ
          have hne3 : s.questionCounts.introduction ≠ 3 := by
            intro hx3
            rcases h4 hx3 with hx | hx
            · rw [hps] at hx; cases hx
            · rw [he'] at hx; cases hx
          have hCnt : (handleResponse s a n).questionCounts =
              { s.questionCounts with
                  introduction := s.questionCounts.introduction + 1 } := by
            rw [hR1, hcat]
            simp [bumpCounts]
          refine ⟨?_, ?_, ?_, ?_⟩
          · rw [hCnt]; simp; omega
          · rw [hCnt]; simp; exact ht5
          · rw [hCnt]; simp; exact hb4
          · unfold phaseInv
            rw [hR6, hph]
            refine ⟨⟨hQcat _ hq1, hCQcat _ hcat⟩, ?_, ?_, fun _ => Or.inl hPend,
              hPay, hContV _, hNoFB⟩
            · rw [hCnt]; simp; exact h2
            · rw [hCnt]; simp; exact h3
        case technical =>
          obtain ⟨⟨hq1, hcq1⟩, h2, h5, _, _, _⟩ := hPh
          have hcat := hcq1 cq hCQ
          have hne5 : s.questionCounts.technical ≠ 5 := by
            intro hx5
            rcases h5 hx5 with hx | hx
            · rw [hps] at hx; cases hx
            · rw [he'] at hx; cases hx
          have hCnt : (handleResponse s a n).questionCounts =
              { s.questionCounts with technical := s.questionCounts.technical + 1 } := by
            rw [hR1, hcat]
            simp [bumpCounts]
          refine ⟨?_, ?_, ?_, ?_⟩
          · rw [hCnt]; simp; exact hi3
          · rw [hCnt]; simp; omega
          · rw [hCnt]; simp; exact hb4
          · unfold phaseInv
            rw [hR6, hph]
            refine ⟨⟨hQcat _ hq1, hCQcat _ hcat⟩, ?_, fun _ => Or.inl hPend,
              hPay, hContV _, hNoFB⟩
            rw [hCnt]; simp; exact h2
        case behavioral =>
          obtain ⟨⟨hq1, hcq1⟩, h4, _, _, _⟩ := hPh
          have hcat := hcq1 cq hCQ
          have hne4 : s.questionCounts.behavioral ≠ 4 := by
            intro hx4
            rcases h4 hx4 with hx | hx
            · rw [hps] at hx; cases hx
            · rw [he'] at hx; cases hx
          have hCnt : (handleResponse s a n).questionCounts =
              { s.questionCounts with behavioral := s.questionCounts.behavioral + 1 } := by
            rw [hR1, hcat]
            simp [bumpCounts]
          refine ⟨?_, ?_, ?_, ?_⟩
          · rw [hCnt]; simp; exact hi3
          · rw [hCnt]; simp; exact ht5
          · rw [hCnt]; simp; omega
          · unfold phaseInv
            rw [hR6, hph]
            exact ⟨⟨hQcat _ hq1, hCQcat _ hcat⟩, fun _ => Or.inl hPend,
              hPay, hContV _, hNoFB⟩
      refine ⟨?_, ?_, ?_, ?_, ?_, ?_, ?_, hMain.1, hMain.2.1, hMain.2.2.1, hMain.2.2.2⟩
      · rw [hR10]; exact hc
      · rw [hR8, hR7]; exact hu
      · exact Or.inr hR3
      · rw [hR2, hT]; simp
      · intro hA2; rw [hR8, hA] at hA2; cases hA2
      · intro hl; rw [hR3] at hl; cases hl
      · intro hend; rw [hR9] at hend; cases hend

/-- The phase-indexed invariant only depends on a few fields. -/
theorem phaseInv_congr (s s2 : SessionState)
    (h1 : s2.interviewPhase = s.interviewPhase)
    (h2 : s2.timers = s.timers)
    (h3 : s2.currentUtterance = none ∨ s2.currentUtterance = s.currentUtterance)
    (h4 : s2.currentQuestion = s.currentQuestion)
    (h5 : s2.questions = s.questions)
    (h6 : s2.questionCounts = s.questionCounts)
    (h7 : s2.isInterviewEnded = s.isInterviewEnded)
    (h8 : s2.isListening = false ∨ s2.isListening = s.isListening)
    (hPh : phaseInv s) : phaseInv s2 := by
  have hps : pendingSettle s2 = pendingSettle s := by simp [pendingSettle, h2]
  have hUtNone : s.currentUtterance = none → s2.currentUtterance = none := by
    intro hn
    rcases h3 with hx | hx
    · exact hx
    · rw [hx, hn]
  have hcont : ∀ (P : Continuation → Prop), contOK s P → contOK s2 P := by
    intro P hP u hu
    rcases h3 with hx | hx
    · rw [hx] at hu; cases hu
    · rw [hx] at hu; exact hP u hu
  unfold phaseInv at hPh ⊢
  rw [h1]
  cases hph : s.interviewPhase
  all_goals rw [hph] at hPh
  case instructions =>
    obtain ⟨a1, a2, a3, a4, a5, a6⟩ := hPh
    refine ⟨by rw [h2]; exact a1, hUtNone a2, ?_, by rw [h4]; exact a4,
      by rw [h5]; exact a5, by rw [h6]; exact a6⟩
    rcases h8 with hx | hx
    · exact hx
    · rw [hx]; exact a3
  case voiceIntro =>
    obtain ⟨a1, a2, a3, a4, a5, a6⟩ := hPh
    refine ⟨by rw [h2]; exact a1, ?_, by rw [h4]; exact a3, by rw [h5]; exact a4,
      by rw [h6]; exact a5, hcont _ a6⟩
    rcases h8 with hx | hx
    · exact hx
    · rw [hx]; exact a2
  case introduction =>
    obtain ⟨⟨b1, b2⟩, c1, c2, c3, c4, c5, c6⟩ := hPh
    refine ⟨⟨?_, ?_⟩, by rw [h6]; exact c1, by rw [h6]; exact c2, ?_, ?_, ?_, ?_⟩
    · intro q hq; rw [h5] at hq; exact b1 q hq
    · intro q hq; rw [h4] at hq; exact b2 q hq
    · intro h3eq
      rw [h6] at h3eq
      rcases c3 h3eq with hx | hx
      · exact Or.inl (by rw [hps]; exact hx)
      · exact Or.inr (by rw [h7]; exact hx)
    · intro t ht c rs hk
      rw [h2] at ht
      rw [h6]
      exact c4 t ht c rs hk
    · exact hcont _ c5
    · intro t ht; rw [h2] at ht; exact c6 t ht
  case technical =>
    obtain ⟨⟨b1, b2⟩, c1, c3, c4, c5, c6⟩ := hPh
    refine ⟨⟨?_, ?_⟩, by rw [h6]; exact c1, ?_, ?_, ?_, ?_⟩
    · intro q hq; rw [h5] at hq; exact b1 q hq
    · intro q hq; rw [h4] at hq; exact b2 q hq
    · intro h3eq
      rw [h6] at h3eq
      rcases c3 h3eq with hx | hx
      · exact Or.inl (by rw [hps]; exact hx)
      · exact Or.inr (by rw [h7]; exact hx)
    · intro t ht c rs hk
      rw [h2] at ht
      rw [h6]
      exact c4 t ht c rs hk
    · exact hcont _ c5
    · intro t ht; rw [h2] at ht; exact c6 t ht
  case behavioral =>
    obtain ⟨⟨b1, b2⟩, c3, c4, c5, c6⟩ := hPh
    refine ⟨⟨?_, ?_⟩, ?_, ?_, ?_, ?_⟩
    · intro q hq; rw [h5] at hq; exact b1 q hq
    · intro q hq; rw [h4] at hq; exact b2 q hq
    · intro h3eq
      rw [h6] at h3eq
      rcases c3 h3eq with hx | hx
      · exact Or.inl (by rw [hps]; exact hx)
      · exact Or.inr (by rw [h7]; exact hx)
    · intro t ht c rs hk
      rw [h2] at ht
      rw [h6]
      exact c4 t ht c rs hk
    · exact hcont _ c5
    · intro t ht; rw [h2] at ht; exact c6 t ht
  case ending =>
    obtain ⟨a1, a2, a3, a4⟩ := hPh
    refine ⟨by rw [h4]; exact a1, ?_, ?_, ?_⟩
    · rcases h8 with hx | hx
      · exact hx
      · rw [hx]; exact a2
    · exact hcont _ a3
    · intro t ht; rw [h2] at ht; exact a4 t ht
  case feedback =>
    obtain ⟨a1, a2, a3, a4⟩ := hPh
    refine ⟨by rw [h4]; exact a1, ?_, by rw [h2]; exact a3, hUtNone a4⟩
    rcases h8 with hx | hx
    · exact hx
    · rw [hx]; exact a2

theorem inv_restart (s : SessionState) (hph : s.interviewPhase = InterviewPhase.feedback)
    (hInv : Inv s) : Inv (restartSession s) := by
  obtain ⟨hc, hu, _, _, _, _, _, _, _, _, hPh⟩ := hInv
  unfold phaseInv at hPh
  rw [hph] at hPh
  obtain ⟨hCQ, hLi, hTi, hUt⟩ := hPh
  have hA : s.aiSpeaking = false := by rw [hu, hUt]; rfl
  refine ⟨hc, hu, Or.inl hA, by simp [restartSession, clearAllTimeouts], ?_, ?_, ?_,
    by simp [restartSession, clearAllTimeouts], by simp [restartSession, clearAllTimeouts],
    by simp [restartSession, clearAllTimeouts], ?_⟩
  · intro _
    rfl
  · intro _
    exact ⟨rfl, hA⟩
  · intro h2
    cases h2
  · exact ⟨rfl, hUt, hLi, hCQ, rfl, rfl⟩

/-- The explicit start action from the instructions screen preserves the
invariant: the voice instructions start speaking with everything quiet. -/
theorem inv_start (s : SessionState) (hph : s.interviewPhase = InterviewPhase.instructions)
    (hInv : Inv s) : Inv (applyEvent s .start) := by
  obtain ⟨hc, hu, hm, htl, hsq, hlq, heq, hi3, ht5, hb4, hPh⟩ := hInv
  unfold phaseInv at hPh
  rw [hph] at hPh
  obtain ⟨hTi, hUt, hLi, hCQ, hQs, hCnt⟩ := hPh
  have hA : s.aiSpeaking = false := by rw [hu, hUt]; rfl
  by_cases hE : s.isInterviewEnded = true
  · simp [applyEvent, hph, startInterview, hE]
    have hContV : contOK { s with interviewPhase := InterviewPhase.voiceIntro }
        (· = Continuation.afterVoiceIntro) := by
      intro u hu2
      have h2 : s.currentUtterance = some u := hu2
      rw [hUt] at h2
      cases h2
    exact ⟨hc, hu, Or.inl hA, htl, hsq, hlq, fun _ => ⟨hTi, hUt, hA, hLi⟩, hi3, ht5, hb4,
      ⟨hTi, hLi, hCQ, hQs, hCnt, hContV⟩⟩
  · have hE' : s.isInterviewEnded = false := eq_false_of_ne_true hE
    simp [applyEvent, hph, startInterview, speakQuestion, hE', hc, hUt]
    have hContV2 : ∀ u : Utterance,
        some (⟨voiceInstructionsText, .afterVoiceIntro⟩ : Utterance) = some u →
        u.cont = Continuation.afterVoiceIntro := by
      intro u hu2
      rw [← Option.some.inj hu2]
    refine ⟨rfl, rfl, Or.inr hLi, htl, ?_, ?_, ?_, hi3, ht5, hb4,
      ⟨hTi, hLi, hCQ, hQs, hCnt, hContV2⟩⟩
    · intro _
      exact hTi
    · intro h2
      have h3 : s.isListening = true := h2
      rw [hLi] at h3
      cases h3
    · intro h2
      cases h2

/-- Completion (or error) of the in-flight utterance preserves the invariant:
its continuation either schedules listening, installs the first batch, speaks
the first new-phase question, or schedules the feedback screen. -/
theorem inv_utteranceDone (s : SessionState) (r : FetchResult) (hInv : Inv s)
    (hok : eventOK s (.utteranceDone r) = true) :
    Inv (applyEvent s (.utteranceDone r)) := by
  obtain ⟨hc, hu, hm, htl, hsq, hlq, heq, hi3, ht5, hb4, hPh⟩ := hInv
  have hPh0 : phaseInv s := hPh
  cases hU : s.currentUtterance with
  | none =>
    simp [applyEvent, hU]
    exact ⟨hc, hu, hm, htl, hsq, hlq, heq, hi3, ht5, hb4, hPh⟩
  | some u =>
    have hA : s.aiSpeaking = true := by rw [hu, hU]; rfl
    have hT : s.timers = [] := hsq hA
    have hLi : s.isListening = false := by
      rcases hm with hx | hx
      · rw [hA] at hx; cases hx
      · exact hx
    have hE : s.isInterviewEnded = false := by
      cases hend : s.isInterviewEnded
      · rfl
      · rw [(heq hend).2.1] at hU; cases hU
    have hps : pendingSettle s = false := by simp [pendingSettle, hT]
    cases hph : s.interviewPhase
    all_goals unfold phaseInv at hPh
    all_goals rw [hph] at hPh
    case instructions => rw [hPh.2.1] at hU; cases hU
    case feedback => rw [hPh.2.2.2] at hU; cases hU
    case voiceIntro =>
      obtain ⟨hTi0, hLi0, hCQ0, hQs0, hCnt0, hCont0⟩ := hPh
      have hcont : u.cont = Continuation.afterVoiceIntro := hCont0 u hU
      have hokB : batchOK QPhase.introduction r = true := by
        simp only [eventOK, hU, hcont] at hok
        exact hok
      have hcat := fetchedBatch_cat QPhase.introduction r hokB
      cases hqs : fetchedBatch QPhase.introduction r with
      | nil => exact absurd hqs (fetchedBatch_ne_nil _ _)
      | cons q rest =>
        rw [hqs] at hcat
        simp [applyEvent, hU, afterUtterance, hcont, hE, generateQuestionsForPhase,
          hqs, createTimeout, hT]
        refine ⟨hc, rfl, Or.inl rfl, by simp, ?_, ?_, ?_, hi3, ht5, hb4, ?_⟩
        · intro h
          cases h
        · intro h
          have h2 : s.isListening = true := h
          rw [hLi] at h2
          cases h2
        · intro h
          cases h
        · refine ⟨⟨?_, ?_⟩, ?_, ?_, ?_, ?_, ?_, ?_⟩
          · intro q2 hq2
            exact hcat q2 hq2
          · intro q2 hq2
            rw [← Option.some.inj hq2]
            exact hcat q (List.mem_cons_self _ _)
          · show s.questionCounts.technical = 0
            rw [hCnt0]
          · show s.questionCounts.behavioral = 0
            rw [hCnt0]
          · intro h3
            have h4 : s.questionCounts.introduction = 3 := h3
            rw [hCnt0] at h4
            simp at h4
          · intro t ht c2 rs2 hk
            simp at ht
            rw [ht] at hk
            simp at hk
          · intro u2 hu2
            cases hu2
          · intro t ht
            simp at ht
            rw [ht]
            rfl
    case introduction =>
      obtain ⟨⟨hq1, hcq1⟩, h20, h30, hbud, hpay0, hcont0, hnf0⟩ := hPh
      have hcont : u.cont = Continuation.plain := hcont0 u hU
      have hne : s.questionCounts.introduction ≠ 3 := by
        intro hx
        rcases hbud hx with hy | hy
        · rw [hps] at hy; cases hy
        · rw [hE] at hy; cases hy
      by_cases hmic : s.isMicOn = true
      · simp [applyEvent, hU, afterUtterance, hcont, hE, hph, hmic, createTimeout, hT]
        refine ⟨hc, rfl, Or.inl rfl, by simp, ?_, ?_, ?_, hi3, ht5, hb4, ?_⟩
        · intro h
          cases h
        · intro h
          have h2 : s.isListening = true := h
          rw [hLi] at h2
          cases h2
        · intro h
          cases h
        · refine ⟨⟨hq1, hcq1⟩, h20, h30, ?_, ?_, ?_, ?_⟩
          · intro h3
            exact absurd h3 hne
          · intro t ht c2 rs2 hk
            simp at ht
            rw [ht] at hk
            simp at hk
          · intro u2 hu2
            cases hu2
          · intro t ht
            simp at ht
            rw [ht]
            rfl
      · have hmic' : s.isMicOn = false := eq_false_of_ne_true hmic
        simp [applyEvent, hU, afterUtterance, hcont, hE, hph, hmic']
        refine ⟨hc, rfl, Or.inl rfl, htl, ?_, ?_, ?_, hi3, ht5, hb4, ?_⟩
        · intro h
          cases h
        · intro h
          exact ⟨hT, rfl⟩
        · intro h
          cases h
        · exact phaseInv_congr s _ hph.symm rfl (Or.inl rfl) rfl rfl rfl hE.symm
            (Or.inr rfl) hPh0
    case technical =>
      obtain ⟨⟨hq1, hcq1⟩, h30, hbud, hpay0, hcont0, hnf0⟩ := hPh
      have hne : s.questionCounts.technical ≠ 5 := by
        intro hx
        rcases hbud hx with hy | hy
        · rw [hps] at hy; cases hy
        · rw [hE] at hy; cases hy
      rcases hcont0 u hU with hpl | ⟨q, htr⟩
      · by_cases hmic : s.isMicOn = true
        · simp [applyEvent, hU, afterUtterance, hpl, hE, hph, hmic, createTimeout, hT]
          refine ⟨hc, rfl, Or.inl rfl, by simp, ?_, ?_, ?_, hi3, ht5, hb4, ?_⟩
          · intro h
            cases h
          · intro h
            have h2 : s.isListening = true := h
            rw [hLi] at h2
            cases h2
          · intro h
            cases h
          · refine ⟨⟨hq1, hcq1⟩, h30, ?_, ?_, ?_, ?_⟩
            · intro h3
              exact absurd h3 hne
            · intro t ht c2 rs2 hk
              simp at ht
              rw [ht] at hk
              simp at hk
            · intro u2 hu2
              cases hu2
            · intro t ht
              simp at ht
              rw [ht]
              rfl
        · have hmic' : s.isMicOn = false := eq_false_of_ne_true hmic
          simp [applyEvent, hU, afterUtterance, hpl, hE, hph, hmic']
          refine ⟨hc, rfl, Or.inl rfl, htl, ?_, ?_, ?_, hi3, ht5, hb4, ?_⟩
          · intro h
            cases h
          · intro h
            exact ⟨hT, rfl⟩
          · intro h
            cases h
          · exact phaseInv_congr s _ hph.symm rfl (Or.inl rfl) rfl rfl rfl hE.symm
              (Or.inr rfl) hPh0
      · simp [applyEvent, hU, afterUtterance, htr, hE, hph, createTimeout, hT]
        refine ⟨hc, rfl, Or.inl rfl, by simp, ?_, ?_, ?_, hi3, ht5, hb4, ?_⟩
        · intro h
          cases h
        · intro h
          have h2 : s.isListening = true := h
          rw [hLi] at h2
          cases h2
        · intro h
          cases h
        · refine ⟨⟨hq1, hcq1⟩, h30, ?_, ?_, ?_, ?_⟩
          · intro h3
            exact absurd h3 hne
          · intro t ht c2 rs2 hk
            simp at ht
            rw [ht] at hk
            simp at hk
          · intro u2 hu2
            cases hu2
          · intro t ht
            simp at ht
            rw [ht]
            rfl
    case behavioral =>
      obtain ⟨⟨hq1, hcq1⟩, hbud, hpay0, hcont0, hnf0⟩ := hPh
      have hne : s.questionCounts.behavioral ≠ 4 := by
        intro hx
        rcases hbud hx with hy | hy
        · rw [hps] at hy; cases hy
        · rw [hE] at hy; cases hy
      rcases hcont0 u hU with hpl | ⟨q, htr⟩
      · by_cases hmic : s.isMicOn = true
        · simp [applyEvent, hU, afterUtterance, hpl, hE, hph, hmic, createTimeout, hT]
          refine ⟨hc, rfl, Or.inl rfl, by simp, ?_, ?_, ?_, hi3, ht5, hb4, ?_⟩
          · intro h
            cases h
          · intro h
            have h2 : s.isListening = true := h
            rw [hLi] at h2
            cases h2
          · intro h
            cases h
          · refine ⟨⟨hq1, hcq1⟩, ?_, ?_, ?_, ?_⟩
            · intro h3
              exact absurd h3 hne
            · intro t ht c2 rs2 hk
              simp at ht
              rw [ht] at hk
              simp at hk
            · intro u2 hu2
              cases hu2
            · intro t ht
              simp at ht
              rw [ht]
              rfl
        · have hmic' : s.isMicOn = false := eq_false_of_ne_true hmic
          simp [applyEvent, hU, afterUtterance, hpl, hE, hph, hmic']
          refine ⟨hc, rfl, Or.inl rfl, htl, ?_, ?_, ?_, hi3, ht5, hb4, ?_⟩
          · intro h
            cases h
          · intro h
            exact ⟨hT, rfl⟩
          · intro h
            cases h
          · exact phaseInv_congr s _ hph.symm rfl (Or.inl rfl) rfl rfl rfl hE.symm
              (Or.inr rfl) hPh0
      · simp [applyEvent, hU, afterUtterance, htr, hE, hph, createTimeout, hT]
        refine ⟨hc, rfl, Or.inl rfl, by simp, ?_, ?_, ?_, hi3, ht5, hb4, ?_⟩
        · intro h
          cases h
        · intro h
          have h2 : s.isListening = true := h
          rw [hLi] at h2
          cases h2
        · intro h
          cases h
        · refine ⟨⟨hq1, hcq1⟩, ?_, ?_, ?_, ?_⟩
          · intro h3
            exact absurd h3 hne
          · intro t ht c2 rs2 hk
            simp at ht
            rw [ht] at hk
            simp at hk
          · intro u2 hu2
            cases hu2
          · intro t ht
            simp at ht
            rw [ht]
            rfl
    case ending =>
      obtain ⟨hCQ0, hLi0, hcont0, hfb0⟩ := hPh
      have hcont : u.cont = Continuation.afterThankYou := hcont0 u hU
      simp [applyEvent, hU, afterUtterance, hcont, hE, hph, createTimeout, hT]
      refine ⟨hc, rfl, Or.inl rfl, by simp, ?_, ?_, ?_, hi3, ht5, hb4, ?_⟩
      · intro h
        cases h
      · intro h
        have h2 : s.isListening = true := h
        rw [hLi] at h2
        cases h2
      · intro h
        cases h
      · refine ⟨hCQ0, hLi0, ?_, ?_⟩
        · intro u2 hu2
          cases hu2
        · intro t ht
          simp at ht
          rw [ht]
          rfl

/-- A tracked timer firing preserves the invariant: a listen timer starts
listening, a speak timer starts the utterance, the settle timer runs the
phase-advance decision, and the feedback timer shows the feedback screen. -/
theorem inv_timerFired (s : SessionState) (i : Nat) (r : FetchResult) (nr : NextResult)
    (hInv : Inv s) (hok : eventOK s (.timerFired i r nr) = true) :
    Inv (applyEvent s (.timerFired i r nr)) := by
  obtain ⟨hc, hu, hm, htl, hsq, hlq, heq, hi3, ht5, hb4, hPh⟩ := hInv
  cases hget : s.timers[i]? with
  | none =>
    simp [applyEvent, hget]
    exact ⟨hc, hu, hm, htl, hsq, hlq, heq, hi3, ht5, hb4, hPh⟩
  | some t =>
    obtain ⟨hT1, hi0⟩ := singleton_of_getElem s.timers i t htl hget
    have hE : s.isInterviewEnded = false := by
      cases hend : s.isInterviewEnded
      · rfl
      · rw [(heq hend).1] at hT1; cases hT1
    have hA : s.aiSpeaking = false := by
      cases has : s.aiSpeaking
      · rfl
      · rw [hsq has] at hT1; cases hT1
    have hU : s.currentUtterance = none := by
      rw [hA] at hu
      cases hx : s.currentUtterance with
      | none => rfl
      | some u => rw [hx] at hu; simp at hu
    have hLi : s.isListening = false := by
      cases hls : s.isListening
      · rfl
      · rw [(hlq hls).1] at hT1; cases hT1
    obtain ⟨k, d⟩ := t
    cases k with
    | listen =>
      have hps : pendingSettle s = false := by simp [pendingSettle, hT1, isSettleT]
      cases hph : s.interviewPhase
      all_goals unfold phaseInv at hPh
      all_goals rw [hph] at hPh
      case instructions => rw [hPh.1] at hT1; cases hT1
      case voiceIntro => rw [hPh.1] at hT1; cases hT1
      case feedback => rw [hPh.2.2.1] at hT1; cases hT1
      case ending =>
        have h5 := hPh.2.2.2 ⟨.listen, d⟩ (by rw [hT1]; exact List.mem_cons_self _ _)
        simp [isFeedbackT] at h5
      case introduction =>
        obtain ⟨⟨hq1, hcq1⟩, h20, h30, hbud, hpay0, hcont0, hnf0⟩ := hPh
        have hne : s.questionCounts.introduction ≠ 3 := by
          intro hx
          rcases hbud hx with hy | hy
          · rw [hps] at hy; cases hy
          · rw [hE] at hy; cases hy
        simp [applyEvent, hget, hE, hT1, hi0, hph, hU, List.eraseIdx]
        refine ⟨hc, hA, Or.inl hA, by simp, ?_, ?_, ?_, hi3, ht5, hb4, ?_⟩
        · intro _
          rfl
        · intro _
          exact ⟨rfl, hA⟩
        · intro h
          cases h
        · refine ⟨⟨hq1, hcq1⟩, h20, h30, ?_, ?_, ?_, ?_⟩
          · intro h3
            exact absurd h3 hne
          · intro t2 ht2 c2 rs2 hk
            simp at ht2
          · intro u2 hu2
            cases hu2
          · intro t2 ht2
            simp at ht2
      case technical =>
        obtain ⟨⟨hq1, hcq1⟩, h30, hbud, hpay0, hcont0, hnf0⟩ := hPh
        have hne : s.questionCounts.technical ≠ 5 := by
          intro hx
          rcases hbud hx with hy | hy
          · rw [hps] at hy; cases hy
          · rw [hE] at hy; cases hy
        simp [applyEvent, hget, hE, hT1, hi0, hph, hU, List.eraseIdx]
        refine ⟨hc, hA, Or.inl hA, by simp, ?_, ?_, ?_, hi3, ht5, hb4, ?_⟩
        · intro _
          rfl
        · intro _
          exact ⟨rfl, hA⟩
        · intro h
          cases h
        · refine ⟨⟨hq1, hcq1⟩, h30, ?_, ?_, ?_, ?_⟩
          · intro h3
            exact absurd h3 hne
          · intro t2 ht2 c2 rs2 hk
            simp at ht2
          · intro u2 hu2
            cases hu2
          · intro t2 ht2
            simp at ht2
      case behavioral =>
        obtain ⟨⟨hq1, hcq1⟩, hbud, hpay0, hcont0, hnf0⟩ := hPh
        have hne : s.questionCounts.behavioral ≠ 4 := by
          intro hx
          rcases hbud hx with hy | hy
          · rw [hps] at hy; cases hy
          · rw [hE] at hy; cases hy
        simp [applyEvent, hget, hE, hT1, hi0, hph, hU, List.eraseIdx]
        refine ⟨hc, hA, Or.inl hA, by simp, ?_, ?_, ?_, hi3, ht5, hb4, ?_⟩
        · intro _
          rfl
        · intro _
          exact ⟨rfl, hA⟩
        · intro h
          cases h
        · refine ⟨⟨hq1, hcq1⟩, ?_, ?_, ?_, ?_⟩
          · intro h3
            exact absurd h3 hne
          · intro t2 ht2 c2 rs2 hk
            simp at ht2
          · intro u2 hu2
            cases hu2
          · intro t2 ht2
            simp at ht2
    | speak q =>
      have hps : pendingSettle s = false := by simp [pendingSettle, hT1, isSettleT]
      cases hph : s.interviewPhase
      all_goals unfold phaseInv at hPh
      all_goals rw [hph] at hPh
      case instructions => rw [hPh.1] at hT1; cases hT1
      case voiceIntro => rw [hPh.1] at hT1; cases hT1
      case feedback => rw [hPh.2.2.1] at hT1; cases hT1
      case ending =>
        have h5 := hPh.2.2.2 ⟨.speak q, d⟩ (by rw [hT1]; exact List.mem_cons_self _ _)
        simp [isFeedbackT] at h5
      case introduction =>
        obtain ⟨⟨hq1, hcq1⟩, h20, h30, hbud, hpay0, hcont0, hnf0⟩ := hPh
        have hne : s.questionCounts.introduction ≠ 3 := by
          intro hx
          rcases hbud hx with hy | hy
          · rw [hps] at hy; cases hy
          · rw [hE] at hy; cases hy
        simp [applyEvent, hget, hE, hT1, hi0, hph, speakQuestion, hc, hU, List.eraseIdx]
        refine ⟨rfl, rfl, Or.inr hLi, by simp, ?_, ?_, ?_, hi3, ht5, hb4, ?_⟩
        · intro _
          rfl
        · intro h
          have h2 : s.isListening = true := h
          rw [hLi] at h2
          cases h2
        · intro h
          cases h
        · refine ⟨⟨hq1, hcq1⟩, h20, h30, ?_, ?_, ?_, ?_⟩
          · intro h3
            exact absurd h3 hne
          · intro t2 ht2 c2 rs2 hk
            simp at ht2
          · intro u2 hu2
            rw [← Option.some.inj hu2]
          · intro t2 ht2
            simp at ht2
      case technical =>
        obtain ⟨⟨hq1, hcq1⟩, h30, hbud, hpay0, hcont0, hnf0⟩ := hPh
        have hne : s.questionCounts.technical ≠ 5 := by
          intro hx
          rcases hbud hx with hy | hy
          · rw [hps] at hy; cases hy
          · rw [hE] at hy; cases hy
        simp [applyEvent, hget, hE, hT1, hi0, hph, speakQuestion, hc, hU, List.eraseIdx]
        refine ⟨rfl, rfl, Or.inr hLi, by simp, ?_, ?_, ?_, hi3, ht5, hb4, ?_⟩
        · intro _
          rfl
        · intro h
          have h2 : s.isListening = true := h
          rw [hLi] at h2
          cases h2
        · intro h
          cases h
        · refine ⟨⟨hq1, hcq1⟩, h30, ?_, ?_, ?_, ?_⟩
          · intro h3
            exact absurd h3 hne
          · intro t2 ht2 c2 rs2 hk
            simp at ht2
          · intro u2 hu2
            exact Or.inl (by rw [← Option.some.inj hu2])
          · intro t2 ht2
            simp at ht2
      case behavioral =>
        obtain ⟨⟨hq1, hcq1⟩, hbud, hpay0, hcont0, hnf0⟩ := hPh
        have hne : s.questionCounts.behavioral ≠ 4 := by
          intro hx
          rcases hbud hx with hy | hy
          · rw [hps] at hy; cases hy
          · rw [hE] at hy; cases hy
        simp [applyEvent, hget, hE, hT1, hi0, hph, speakQuestion, hc, hU, List.eraseIdx]
        refine ⟨rfl, rfl, Or.inr hLi, by simp, ?_, ?_, ?_, hi3, ht5, hb4, ?_⟩
        · intro _
          rfl
        · intro h
          have h2 : s.isListening = true := h
          rw [hLi] at h2
          cases h2
        · intro h
          cases h
        · refine ⟨⟨hq1, hcq1⟩, ?_, ?_, ?_, ?_⟩
          · intro h3
            exact absurd h3 hne
          · intro t2 ht2 c2 rs2 hk
            simp at ht2
          · intro u2 hu2
            exact Or.inl (by rw [← Option.some.inj hu2])
          · intro t2 ht2
            simp at ht2
    | settle c rs =>
      cases hph : s.interviewPhase
      all_goals unfold phaseInv at hPh
      all_goals rw [hph] at hPh
      case instructions => rw [hPh.1] at hT1; cases hT1
      case voiceIntro => rw [hPh.1] at hT1; cases hT1
      case feedback => rw [hPh.2.2.1] at hT1; cases hT1
      case ending =>
        have h5 := hPh.2.2.2 ⟨.settle c rs, d⟩ (by rw [hT1]; exact List.mem_cons_self _ _)
        simp [isFeedbackT] at h5
      case introduction =>
        obtain ⟨⟨hq1, hcq1⟩, h20, h30, hbud, hpay0, hcont0, hnf0⟩ := hPh
        have hCeq : c = s.questionCounts :=
          hpay0 ⟨.settle c rs, d⟩ (by rw [hT1]; exact List.mem_cons_self _ _) c rs rfl
        by_cases hlt : c.introduction < 3
        · have hne : s.questionCounts.introduction ≠ 3 := by
            rw [← hCeq]
            omega
          cases hadv : s.questions[s.currentQuestionIndex + 1]? with
          | some q =>
            have hqmem : q ∈ s.questions := mem_of_getElem? hadv
            simp [applyEvent, hget, hE, hT1, hi0, hph, determineNextStep, hlt,
              advanceWithinPhase, hadv, createTimeout, hU, List.eraseIdx]
            refine ⟨hc, hA, Or.inl hA, by simp, ?_, ?_, ?_, hi3, ht5, hb4, ?_⟩
            · intro h
              have h2 : s.aiSpeaking = true := h
              rw [hA] at h2
              cases h2
            · intro h
              have h2 : s.isListening = true := h
              rw [hLi] at h2
              cases h2
            · intro h
              cases h
            · refine ⟨⟨hq1, ?_⟩, h20, h30, ?_, ?_, ?_, ?_⟩
              · intro q2 hq2
                rw [← Option.some.inj hq2]
                exact hq1 q hqmem
              · intro h3
                exact absurd h3 hne
              · intro t2 ht2 c2 rs2 hk
                simp at ht2
                rw [ht2] at hk
                simp at hk
              · intro u2 hu2
                cases hu2
              · intro t2 ht2
                simp at ht2
                rw [ht2]
                rfl
          | none =>
            cases nr with
            | fail =>
              simp [applyEvent, hget, hE, hT1, hi0, hph, determineNextStep, hlt,
                advanceWithinPhase, hadv, generateNextQuestionInPhase, hU, List.eraseIdx]
              refine ⟨hc, hA, Or.inl hA, by simp, ?_, ?_, ?_, hi3, ht5, hb4, ?_⟩
              · intro _
                rfl
              · intro _
                exact ⟨rfl, hA⟩
              · intro h
                cases h
              · refine ⟨⟨hq1, hcq1⟩, h20, h30, ?_, ?_, ?_, ?_⟩
                · intro h3
                  exact absurd h3 hne
                · intro t2 ht2 c2 rs2 hk
                  simp at ht2
                · intro u2 hu2
                  cases hu2
                · intro t2 ht2
                  simp at ht2
            | ok id2 text =>
              by_cases htxt : text = ""
              · simp [applyEvent, hget, hE, hT1, hi0, hph, determineNextStep, hlt,
                  advanceWithinPhase, hadv, generateNextQuestionInPhase, htxt, hU,
                  List.eraseIdx]
                refine ⟨hc, hA, Or.inl hA, by simp, ?_, ?_, ?_, hi3, ht5, hb4, ?_⟩
                · intro _
                  rfl
                · intro _
                  exact ⟨rfl, hA⟩
                · intro h
                  cases h
                · refine ⟨⟨hq1, hcq1⟩, h20, h30, ?_, ?_, ?_, ?_⟩
                  · intro h3
                    exact absurd h3 hne
                  · intro t2 ht2 c2 rs2 hk
                    simp at ht2
                  · intro u2 hu2
                    cases hu2
                  · intro t2 ht2
                    simp at ht2
              · simp [applyEvent, hget, hE, hT1, hi0, hph, determineNextStep, hlt,
                  advanceWithinPhase, hadv, generateNextQuestionInPhase, htxt,
                  createTimeout, QPhase.toCategory, hU, List.eraseIdx]
                refine ⟨hc, hA, Or.inl hA, by simp, ?_, ?_, ?_, hi3, ht5, hb4, ?_⟩
                · intro h
                  have h2 : s.aiSpeaking = true := h
                  rw [hA] at h2
                  cases h2
                · intro h
                  have h2 : s.isListening = true := h
                  rw [hLi] at h2
                  cases h2
                · intro h
                  cases h
                · refine ⟨⟨?_, ?_⟩, h20, h30, ?_, ?_, ?_, ?_⟩
                  · intro q2 hq2
                    rcases List.mem_append.mp hq2 with h9 | h9
                    · exact hq1 q2 h9
                    · simp at h9
                      rw [h9]
                  · intro q2 hq2
                    rw [← Option.some.inj hq2]
                  · intro h3
                    exact absurd h3 hne
                  · intro t2 ht2 c2 rs2 hk
                    simp at ht2
                    rw [ht2] at hk
                    simp at hk
                  · intro u2 hu2
                    cases hu2
                  · intro t2 ht2
                    simp at ht2
                    rw [ht2]
                    rfl
        · have hok2 : batchOK QPhase.technical r = true := by
            simp [eventOK, hget] at hok
            rw [hph] at hok
            simp [hlt] at hok
            exact hok
          have hcat := fetchedBatch_cat QPhase.technical r hok2
          cases hqs : fetchedBatch QPhase.technical r with
          | nil => exact absurd hqs (fetchedBatch_ne_nil _ _)
          | cons q rest =>
            rw [hqs] at hcat
            simp [applyEvent, hget, hE, hT1, hi0, hph, determineNextStep, hlt,
              transitionToPhase, hqs, QPhase.toPhase, speakQuestion, hc, hU,
              List.eraseIdx]
            refine ⟨rfl, rfl, Or.inr hLi, by simp, ?_, ?_, ?_, hi3, ht5, hb4, ?_⟩
            · intro _
              rfl
            · intro h
              have h2 : s.isListening = true := h
              rw [hLi] at h2
              cases h2
            · intro h
              cases h
            · refine ⟨⟨?_, ?_⟩, ?_, ?_, ?_, ?_, ?_⟩
              · intro q2 hq2
                exact hcat q2 hq2
              · intro q2 hq2
                rw [← Option.some.inj hq2]
                exact hcat q (List.mem_cons_self _ _)
              · exact h30
              · intro h3
                have h4 : s.questionCounts.technical = 5 := h3
                rw [h20] at h4
                simp at h4
              · intro t2 ht2 c2 rs2 hk
                simp at ht2
              · intro u2 hu2
                refine Or.inr ⟨q, ?_⟩
                rw [← Option.some.inj hu2]
              · intro t2 ht2
                simp at ht2
      case technical =>
        obtain ⟨⟨hq1, hcq1⟩, h30, hbud, hpay0, hcont0, hnf0⟩ := hPh
        have hCeq : c = s.questionCounts :=
          hpay0 ⟨.settle c rs, d⟩ (by rw [hT1]; exact List.mem_cons_self _ _) c rs rfl
        by_cases hlt : c.technical < 5
        · have hne : s.questionCounts.technical ≠ 5 := by
            rw [← hCeq]
            omega
          cases hadv : s.questions[s.currentQuestionIndex + 1]? with
          | some q =>
            have hqmem : q ∈ s.questions := mem_of_getElem? hadv
            simp [applyEvent, hget, hE, hT1, hi0, hph, determineNextStep, hlt,
              advanceWithinPhase, hadv, createTimeout, hU, List.eraseIdx]
            refine ⟨hc, hA, Or.inl hA, by simp, ?_, ?_, ?_, hi3, ht5, hb4, ?_⟩
            · intro h
              have h2 : s.aiSpeaking = true := h
              rw [hA] at h2
              cases h2
            · intro h
              have h2 : s.isListening = true := h
              rw [hLi] at h2
              cases h2
            · intro h
              cases h
            · refine ⟨⟨hq1, ?_⟩, h30, ?_, ?_, ?_, ?_⟩
              · intro q2 hq2
                rw [← Option.some.inj hq2]
                exact hq1 q hqmem
              · intro h3
                exact absurd h3 hne
              · intro t2 ht2 c2 rs2 hk
                simp at ht2
                rw [ht2] at hk
                simp at hk
              · intro u2 hu2
                cases hu2
              · intro t2 ht2
                simp at ht2
                rw [ht2]
                rfl
          | none =>
            cases nr with
            | fail =>
              simp [applyEvent, hget, hE, hT1, hi0, hph, determineNextStep, hlt,
                advanceWithinPhase, hadv, generateNextQuestionInPhase, hU, List.eraseIdx]
              refine ⟨hc, hA, Or.inl hA, by simp, ?_, ?_, ?_, hi3, ht5, hb4, ?_⟩
              · intro _
                rfl
              · intro _
                exact ⟨rfl, hA⟩
              · intro h
                cases h
              · refine ⟨⟨hq1, hcq1⟩, h30, ?_, ?_, ?_, ?_⟩
                · intro h3
                  exact absurd h3 hne
                · intro t2 ht2 c2 rs2 hk
                  simp at ht2
                · intro u2 hu2
                  cases hu2
                · intro t2 ht2
                  simp at ht2
            | ok id2 text =>
              by_cases htxt : text = ""
              · simp [applyEvent, hget, hE, hT1, hi0, hph, determineNextStep, hlt,
                  advanceWithinPhase, hadv, generateNextQuestionInPhase, htxt, hU,
                  List.eraseIdx]
                refine ⟨hc, hA, Or.inl hA, by simp, ?_, ?_, ?_, hi3, ht5, hb4, ?_⟩
                · intro _
                  rfl
                · intro _
                  exact ⟨rfl, hA⟩
                · intro h
                  cases h
                · refine ⟨⟨hq1, hcq1⟩, h30, ?_, ?_, ?_, ?_⟩
                  · intro h3
                    exact absurd h3 hne
                  · intro t2 ht2 c2 rs2 hk
                    simp at ht2
                  · intro u2 hu2
                    cases hu2
                  · intro t2 ht2
                    simp at ht2
              · simp [applyEvent, hget, hE, hT1, hi0, hph, determineNextStep, hlt,
                  advanceWithinPhase, hadv, generateNextQuestionInPhase, htxt,
                  createTimeout, QPhase.toCategory, hU, List.eraseIdx]
                refine ⟨hc, hA, Or.inl hA, by simp, ?_, ?_, ?_, hi3, ht5, hb4, ?_⟩
                · intro h
                  have h2 : s.aiSpeaking = true := h
                  rw [hA] at h2
                  cases h2
                · intro h
                  have h2 : s.isListening = true := h
                  rw [hLi] at h2
                  cases h2
                · intro h
                  cases h
                · refine ⟨⟨?_, ?_⟩, h30, ?_, ?_, ?_, ?_⟩
                  · intro q2 hq2
                    rcases List.mem_append.mp hq2 with h9 | h9
                    · exact hq1 q2 h9
                    · simp at h9
                      rw [h9]
                  · intro q2 hq2
                    rw [← Option.some.inj hq2]
                  · intro h3
                    exact absurd h3 hne
                  · intro t2 ht2 c2 rs2 hk
                    simp at ht2
                    rw [ht2] at hk
                    simp at hk
                  · intro u2 hu2
                    cases hu2
                  · intro t2 ht2
                    simp at ht2
                    rw [ht2]
                    rfl
        · have hok2 : batchOK QPhase.behavioral r = true := by
            simp [eventOK, hget] at hok
            rw [hph] at hok
            simp [hlt] at hok
            exact hok
          have hcat := fetchedBatch_cat QPhase.behavioral r hok2
          cases hqs : fetchedBatch QPhase.behavioral r with
          | nil => exact absurd hqs (fetchedBatch_ne_nil _ _)
          | cons q rest =>
            rw [hqs] at hcat
            simp [applyEvent, hget, hE, hT1, hi0, hph, determineNextStep, hlt,
              transitionToPhase, hqs, QPhase.toPhase, speakQuestion, hc, hU,
              List.eraseIdx]
            refine ⟨rfl, rfl, Or.inr hLi, by simp, ?_, ?_, ?_, hi3, ht5, hb4, ?_⟩
            · intro _
              rfl
            · intro h
              have h2 : s.isListening = true := h
              rw [hLi] at h2
              cases h2
            · intro h
              cases h
            · refine ⟨⟨?_, ?_⟩, ?_, ?_, ?_, ?_⟩
              · intro q2 hq2
                exact hcat q2 hq2
              · intro q2 hq2
                rw [← Option.some.inj hq2]
                exact hcat q (List.mem_cons_self _ _)
              · intro h3
                have h4 : s.questionCounts.behavioral = 4 := h3
                rw [h30] at h4
                simp at h4
              · intro t2 ht2 c2 rs2 hk
                simp at ht2
              · intro u2 hu2
                refine Or.inr ⟨q, ?_⟩
                rw [← Option.some.inj hu2]
              · intro t2 ht2
                simp at ht2
      case behavioral =>
        obtain ⟨⟨hq1, hcq1⟩, hbud, hpay0, hcont0, hnf0⟩ := hPh
        have hCeq : c = s.questionCounts :=
          hpay0 ⟨.settle c rs, d⟩ (by rw [hT1]; exact List.mem_cons_self _ _) c rs rfl
        by_cases hlt : c.behavioral < 4
        · have hne : s.questionCounts.behavioral ≠ 4 := by
            rw [← hCeq]
            omega
          cases hadv : s.questions[s.currentQuestionIndex + 1]? with
          | some q =>
            have hqmem : q ∈ s.questions := mem_of_getElem? hadv
            simp [applyEvent, hget, hE, hT1, hi0, hph, determineNextStep, hlt,
              advanceWithinPhase, hadv, createTimeout, hU, List.eraseIdx]
            refine ⟨hc, hA, Or.inl hA, by simp, ?_, ?_, ?_, hi3, ht5, hb4, ?_⟩
            · intro h
              have h2 : s.aiSpeaking = true := h
              rw [hA] at h2
              cases h2
            · intro h
              have h2 : s.isListening = true := h
              rw [hLi] at h2
              cases h2
            · intro h
              cases h
            · refine ⟨⟨hq1, ?_⟩, ?_, ?_, ?_, ?_⟩
              · intro q2 hq2
                rw [← Option.some.inj hq2]
                exact hq1 q hqmem
              · intro h3
                exact absurd h3 hne
              · intro t2 ht2 c2 rs2 hk
                simp at ht2
                rw [ht2] at hk
                simp at hk
              · intro u2 hu2
                cases hu2
              · intro t2 ht2
                simp at ht2
                rw [ht2]
                rfl
          | none =>
            cases nr with
            | fail =>
              simp [applyEvent, hget, hE, hT1, hi0, hph, determineNextStep, hlt,
                advanceWithinPhase, hadv, generateNextQuestionInPhase, hU, List.eraseIdx]
              refine ⟨hc, hA, Or.inl hA, by simp, ?_, ?_, ?_, hi3, ht5, hb4, ?_⟩
              · intro _
                rfl
              · intro _
                exact ⟨rfl, hA⟩
              · intro h
                cases h
              · refine ⟨⟨hq1, hcq1⟩, ?_, ?_, ?_, ?_⟩
                · intro h3
                  exact absurd h3 hne
                · intro t2 ht2 c2 rs2 hk
                  simp at ht2
                · intro u2 hu2
                  cases hu2
                · intro t2 ht2
                  simp at ht2
            | ok id2 text =>
              by_cases htxt : text = ""
              · simp [applyEvent, hget, hE, hT1, hi0, hph, determineNextStep, hlt,
                  advanceWithinPhase, hadv, generateNextQuestionInPhase, htxt, hU,
                  List.eraseIdx]
                refine ⟨hc, hA, Or.inl hA, by simp, ?_, ?_, ?_, hi3, ht5, hb4, ?_⟩
                · intro _
                  rfl
                · intro _
                  exact ⟨rfl, hA⟩
                · intro h
                  cases h
                · refine ⟨⟨hq1, hcq1⟩, ?_, ?_, ?_, ?_⟩
                  · intro h3
                    exact absurd h3 hne
                  · intro t2 ht2 c2 rs2 hk
                    simp at ht2
                  · intro u2 hu2
                    cases hu2
                  · intro t2 ht2
                    simp at ht2
              · simp [applyEvent, hget, hE, hT1, hi0, hph, determineNextStep, hlt,
                  advanceWithinPhase, hadv, generateNextQuestionInPhase, htxt,
                  createTimeout, QPhase.toCategory, hU, List.eraseIdx]
                refine ⟨hc, hA, Or.inl hA, by simp, ?_, ?_, ?_, hi3, ht5, hb4, ?_⟩
                · intro h
                  have h2 : s.aiSpeaking = true := h
                  rw [hA] at h2
                  cases h2
                · intro h
                  have h2 : s.isListening = true := h
                  rw [hLi] at h2
                  cases h2
                · intro h
                  cases h
                · refine ⟨⟨?_, ?_⟩, ?_, ?_, ?_, ?_⟩
                  · intro q2 hq2
                    rcases List.mem_append.mp hq2 with h9 | h9
                    · exact hq1 q2 h9
                    · simp at h9
                      rw [h9]
                  · intro q2 hq2
                    rw [← Option.some.inj hq2]
                  · intro h3
                    exact absurd h3 hne
                  · intro t2 ht2 c2 rs2 hk
                    simp at ht2
                    rw [ht2] at hk
                    simp at hk
                  · intro u2 hu2
                    cases hu2
                  · intro t2 ht2
                    simp at ht2
                    rw [ht2]
                    rfl
        · simp [applyEvent, hget, hE, hT1, hi0, hph, determineNextStep, hlt,
            endInterview, speakQuestion, hc, hU, List.eraseIdx]
          refine ⟨rfl, rfl, Or.inr rfl, by simp, ?_, ?_, ?_, hi3, ht5, hb4, ?_⟩
          · intro _
            rfl
          · intro h
            cases h
          · intro h
            cases h
          · refine ⟨rfl, rfl, ?_, ?_⟩
            · intro u2 hu2
              rw [← Option.some.inj hu2]
            · intro t2 ht2
              simp at ht2
    | toFeedback =>
      cases hph : s.interviewPhase
      all_goals unfold phaseInv at hPh
      all_goals rw [hph] at hPh
      case instructions => rw [hPh.1] at hT1; cases hT1
      case voiceIntro => rw [hPh.1] at hT1; cases hT1
      case feedback => rw [hPh.2.2.1] at hT1; cases hT1
      case introduction =>
        have h5 := hPh.2.2.2.2.2.2 ⟨.toFeedback, d⟩
          (by rw [hT1]; exact List.mem_cons_self _ _)
        simp [isFeedbackT] at h5
      case technical =>
        have h5 := hPh.2.2.2.2.2 ⟨.toFeedback, d⟩
          (by rw [hT1]; exact List.mem_cons_self _ _)
        simp [isFeedbackT] at h5
      case behavioral =>
        have h5 := hPh.2.2.2.2 ⟨.toFeedback, d⟩
          (by rw [hT1]; exact List.mem_cons_self _ _)
        simp [isFeedbackT] at h5
      case ending =>
        obtain ⟨hCQ0, hLi0, hcont0, hfb0⟩ := hPh
        simp [applyEvent, hget, hE, hT1, hi0, hph, hU, List.eraseIdx]
        refine ⟨hc, hA, Or.inl hA, by simp, ?_, ?_, ?_, hi3, ht5, hb4, ?_⟩
        · intro _
          rfl
        · intro _
          exact ⟨rfl, hA⟩
        · intro h
          cases h
        · exact ⟨hCQ0, hLi0, rfl, rfl⟩

/-- Every contract-respecting disciplined event preserves the invariant. -/
theorem inv_step (s : SessionState) (e : Event) (hInv : Inv s)
    (hok : eventOK s e = true) (hd : disciplined s e = true) :
    Inv (applyEvent s e) := by
  obtain ⟨hc, hu, hm, htl, hsq, hlq, heq, hi3, ht5, hb4, hPh⟩ := hInv
  have hPh0 : phaseInv s := hPh
  cases e with
  | start =>
    by_cases hph : s.interviewPhase = InterviewPhase.instructions
    · exact inv_start s hph ⟨hc, hu, hm, htl, hsq, hlq, heq, hi3, ht5, hb4, hPh⟩
    · simp [applyEvent, hph]
      exact ⟨hc, hu, hm, htl, hsq, hlq, heq, hi3, ht5, hb4, hPh⟩
  | utteranceDone r =>
    exact inv_utteranceDone s r ⟨hc, hu, hm, htl, hsq, hlq, heq, hi3, ht5, hb4, hPh⟩ hok
  | cancelFired i r =>
    simp [applyEvent, hc]
    exact ⟨hc, hu, hm, htl, hsq, hlq, heq, hi3, ht5, hb4, hPh⟩
  | timerFired i r nr =>
    exact inv_timerFired s i r nr ⟨hc, hu, hm, htl, hsq, hlq, heq, hi3, ht5, hb4, hPh⟩ hok
  | answer text now =>
    by_cases hl : s.isListening = true
    · obtain ⟨hT, hA⟩ := hlq hl
      simp [applyEvent, hl]
      exact inv_submit s text now ⟨hc, hu, hm, htl, hsq, hlq, heq, hi3, ht5, hb4, hPh⟩ hT hA
    · simp [applyEvent, hl]
      exact ⟨hc, hu, hm, htl, hsq, hlq, heq, hi3, ht5, hb4, hPh⟩
  | skip now =>
    simp only [disciplined, Bool.and_eq_true] at hd
    obtain ⟨hnA, hFB⟩ := hd
    have hA : s.aiSpeaking = false := by
      simp at hnA
      exact hnA
    have hU : s.currentUtterance = none := by
      rw [hA] at hu
      cases hx : s.currentUtterance with
      | none => rfl
      | some u => rw [hx] at hu; simp at hu
    have hFB2 : ∀ t ∈ s.timers, isFeedbackT t = true := by
      rw [List.all_eq_true] at hFB
      exact hFB
    cases hCQ : s.currentQuestion with
    | none =>
      simp [applyEvent, handleManualNext, hCQ]
      exact ⟨hc, hu, hm, htl, hsq, hlq, heq, hi3, ht5, hb4, hPh⟩
    | some cq =>
      by_cases hE : s.isInterviewEnded = true
      · simp [applyEvent, handleManualNext, hCQ, hE]
        exact ⟨hc, hu, hm, htl, hsq, hlq, heq, hi3, ht5, hb4, hPh⟩
      · have hE' : s.isInterviewEnded = false := eq_false_of_ne_true hE
        have hT : s.timers = [] := by
          cases hph : s.interviewPhase
          all_goals unfold phaseInv at hPh
          all_goals rw [hph] at hPh
          case instructions => exact hPh.1
          case voiceIntro => exact hPh.1
          case feedback => exact hPh.2.2.1
          case ending => rw [hPh.1] at hCQ; cases hCQ
          case introduction => exact all_feedback_and_none_nil s.timers hFB2 hPh.2.2.2.2.2.2
          case technical => exact all_feedback_and_none_nil s.timers hFB2 hPh.2.2.2.2.2
          case behavioral => exact all_feedback_and_none_nil s.timers hFB2 hPh.2.2.2.2
        simp [applyEvent, handleManualNext, hCQ, hE', hc, hU]
        apply inv_submit
        · refine ⟨rfl, rfl, Or.inl rfl, htl, ?_, ?_, ?_, hi3, ht5, hb4, ?_⟩
          · intro h
            cases h
          · intro _
            exact ⟨hT, rfl⟩
          · intro h
            cases h
          · exact phaseInv_congr s _ rfl rfl (Or.inl rfl) hCQ.symm rfl rfl hE'.symm
              (Or.inr rfl) hPh0
        · exact hT
        · rfl
  | endClick =>
    exact inv_handleEndInterview s ⟨hc, hu, hm, htl, hsq, hlq, heq, hi3, ht5, hb4, hPh⟩
  | micToggle =>
    cases hstr : s.stream with
    | none =>
      simp [applyEvent, toggleMic, hstr]
      exact ⟨hc, hu, hm, htl, hsq, hlq, heq, hi3, ht5, hb4, hPh⟩
    | some ts =>
      by_cases hfil : (ts.filter fun t => t.kind == TrackKind.mic) = []
      · simp [applyEvent, toggleMic, hstr, hfil]
        exact ⟨hc, hu, hm, htl, hsq, hlq, heq, hi3, ht5, hb4, hPh⟩
      · cases hmica : s.isMicOn with
        | false =>
          cases hlis : s.isListening with
          | false =>
            simp [applyEvent, toggleMic, hstr, hfil, hmica, hlis]
            exact ⟨hc, hu, Or.inr rfl, htl, hsq, (fun h => by cases h),
              (fun h => ⟨(heq h).1, (heq h).2.1, (heq h).2.2.1, rfl⟩), hi3, ht5, hb4,
              phaseInv_congr s _ rfl rfl (Or.inr rfl) rfl rfl rfl rfl (Or.inl rfl) hPh0⟩
          | true =>
            simp [applyEvent, toggleMic, hstr, hfil, hmica, hlis]
            exact ⟨hc, hu, Or.inr rfl, htl, hsq, (fun h => by cases h),
              (fun h => ⟨(heq h).1, (heq h).2.1, (heq h).2.2.1, rfl⟩), hi3, ht5, hb4,
              phaseInv_congr s _ rfl rfl (Or.inr rfl) rfl rfl rfl rfl (Or.inl rfl) hPh0⟩
        | true =>
          cases hlis : s.isListening with
          | false =>
            simp [applyEvent, toggleMic, hstr, hfil, hmica, hlis]
            exact ⟨hc, hu, Or.inr rfl, htl, hsq, (fun h => by cases h),
              (fun h => ⟨(heq h).1, (heq h).2.1, (heq h).2.2.1, rfl⟩), hi3, ht5, hb4,
              phaseInv_congr s _ rfl rfl (Or.inr rfl) rfl rfl rfl rfl (Or.inl rfl) hPh0⟩
          | true =>
            simp [applyEvent, toggleMic, hstr, hfil, hmica, hlis]
            exact ⟨hc, hu, Or.inl (hlq hlis).2, htl, hsq, (fun _ => hlq hlis),
              (fun h => by rw [(heq h).2.2.2] at hlis; cases hlis), hi3, ht5, hb4,
              phaseInv_congr s _ rfl rfl (Or.inr rfl) rfl rfl rfl rfl
                (Or.inr hlis.symm) hPh0⟩
  | camToggle =>
    cases hstr : s.stream with
    | none =>
      simp [applyEvent, toggleCamera, hstr]
      exact ⟨hc, hu, hm, htl, hsq, hlq, heq, hi3, ht5, hb4, hPh⟩
    | some ts =>
      by_cases hfil : (ts.filter fun t => t.kind == TrackKind.cam) = []
      · simp [applyEvent, toggleCamera, hstr, hfil]
        exact ⟨hc, hu, hm, htl, hsq, hlq, heq, hi3, ht5, hb4, hPh⟩
      · simp [applyEvent, toggleCamera, hstr, hfil]
        exact ⟨hc, hu, hm, htl, hsq, hlq, heq, hi3, ht5, hb4,
          phaseInv_congr s _ rfl rfl (Or.inr rfl) rfl rfl rfl rfl (Or.inr rfl) hPh0⟩
  | recognitionStop =>
    simp only [applyEvent]
    exact ⟨hc, hu, Or.inr rfl, htl, hsq, (fun h => by cases h),
      (fun h => ⟨(heq h).1, (heq h).2.1, (heq h).2.2.1, rfl⟩), hi3, ht5, hb4,
      phaseInv_congr s _ rfl rfl (Or.inr rfl) rfl rfl rfl rfl (Or.inl rfl) hPh0⟩
  | restart =>
    by_cases hph : s.interviewPhase = InterviewPhase.feedback
    · simp [applyEvent, hph]
      exact inv_restart s hph ⟨hc, hu, hm, htl, hsq, hlq, heq, hi3, ht5, hb4, hPh⟩
    · simp [applyEvent, hph]
      exact ⟨hc, hu, hm, htl, hsq, hlq, heq, hi3, ht5, hb4, hPh⟩

/-- The invariant holds in the mounted component's initial state. -/
theorem inv_initialState : Inv initialState := by
  refine ⟨rfl, rfl, Or.inl rfl, by simp [initialState], ?_, ?_, ?_,
    by simp [initialState], by simp [initialState], by simp [initialState], ?_⟩
  · intro h
    cases h
  · intro h
    cases h
  · intro h
    cases h
  · exact ⟨rfl, rfl, rfl, rfl, rfl, rfl⟩

/-- The invariant holds after every contract-respecting disciplined run. -/
theorem inv_run : ∀ (es : List Event) (s : SessionState),
    Inv s → okRun s es = true → discRun s es = true → Inv (runEvents s es) := by
  intro es
  induction es with
  | nil =>
    intro s h _ _
    exact h
  | cons e es ih =>
    intro s h hok hd
    simp only [okRun, Bool.and_eq_true] at hok
    simp only [discRun, Bool.and_eq_true] at hd
    exact ih (applyEvent s e) (inv_step s e h hok.1 hd.1) hok.2 hd.2

/-- Claim C1 (corrected): along every run that respects the remote-service
contract and obeys the turn-taking discipline (no skip while the AI is
speaking or while a listen, speak or settle timer is pending; restart only
after cancelled handlers fired), the per-phase counters never exceed their
budgets of 3, 5 and 4; and the phase-advance decision asks another question
in a phase exactly while that phase's counter is strictly below its budget,
moving to the next phase (or to the ending step) once it is reached. -/
theorem C1_phase_budget (es : List Event)
    (hok : okRun initialState es = true) (hd : discRun initialState es = true) :
    ((runEvents initialState es).questionCounts.introduction ≤ 3 ∧
     (runEvents initialState es).questionCounts.technical ≤ 5 ∧
     (runEvents initialState es).questionCounts.behavioral ≤ 4) ∧
    (∀ (s : SessionState) (c : QuestionCounts) (rs : List Response)
       (r : FetchResult) (nr : NextResult), s.isInterviewEnded = false →
      (s.interviewPhase = InterviewPhase.introduction →
        (c.introduction < 3 →
          determineNextStep s c rs r nr = advanceWithinPhase s .introduction rs nr) ∧
        (3 ≤ c.introduction →
          determineNextStep s c rs r nr = transitionToPhase s .technical r)) ∧
      (s.interviewPhase = InterviewPhase.technical →
        (c.technical < 5 →
          determineNextStep s c rs r nr = advanceWithinPhase s .technical rs nr) ∧
        (5 ≤ c.technical →
          determineNextStep s c rs r nr = transitionToPhase s .behavioral r)) ∧
      (s.interviewPhase = InterviewPhase.behavioral →
        (c.behavioral < 4 →
          determineNextStep s c rs r nr = advanceWithinPhase s .behavioral rs nr) ∧
        (4 ≤ c.behavioral → determineNextStep s c rs r nr = endInterview s))) := by
  have hI := inv_run es initialState inv_initialState hok hd
  refine ⟨⟨hI.introLe, hI.techLe, hI.behavLe⟩, ?_⟩
  intro s c rs r nr hE
  refine ⟨?_, ?_, ?_⟩
  · intro hph
    constructor
    · intro hlt
      simp [determineNextStep, hE, hph, hlt]
    · intro hge
      have hlt : ¬ c.introduction < 3 := by omega
      simp [determineNextStep, hE, hph, hlt]
  · intro hph
    constructor
    · intro hlt
      simp [determineNextStep, hE, hph, hlt]
    · intro hge
      have hlt : ¬ c.technical < 5 := by omega
      simp [determineNextStep, hE, hph, hlt]
  · intro hph
    constructor
    · intro hlt
      simp [determineNextStep, hE, hph, hlt]
    · intro hge
      have hlt : ¬ c.behavioral < 4 := by omega
      simp [determineNextStep, hE, hph, hlt]

/-- A concrete disciplined contract-respecting run with one answered
introduction question, witnessing the C1 budget bound. -/
theorem C1_phase_budget_witness :
    okRun initialState c1WitnessTrace = true ∧
    discRun initialState c1WitnessTrace = true ∧
    (runEvents initialState c1WitnessTrace).questionCounts.introduction ≤ 3 :=
  ⟨by decide, by decide,
    (C1_phase_budget c1WitnessTrace (by decide) (by decide)).1.1⟩

/-- Claim C7 (corrected): along every run that respects the remote-service
contract and obeys the turn-taking discipline, the speaking flag and the
listening flag are never simultaneously true. -/
theorem C7_speaking_listening_mutex (es : List Event)
    (hok : okRun initialState es = true) (hd : discRun initialState es = true) :
    (runEvents initialState es).aiSpeaking = false ∨
    (runEvents initialState es).isListening = false :=
  (inv_run es initialState inv_initialState hok hd).mutex

/-- A concrete disciplined contract-respecting run reaching a listening
state, witnessing the C7 mutual exclusion. -/
theorem C7_speaking_listening_mutex_witness :
    okRun initialState c7WitnessTrace = true ∧
    discRun initialState c7WitnessTrace = true ∧
    ((runEvents initialState c7WitnessTrace).aiSpeaking = false ∨
     (runEvents initialState c7WitnessTrace).isListening = false) :=
  ⟨by decide, by decide,
    C7_speaking_listening_mutex c7WitnessTrace (by decide) (by decide)⟩

end InterviewPro
